import Mathlib

/-!
Verification of the agentwatch live monitoring and aggregation engine.

This file shallowly embeds the core data structures and algorithms of the
repository (src/lib/tmux.ts and src/watch.ts) as executable Lean definitions
and proves, or refutes, the specified properties about them.

Conventions of the embedding:
* JavaScript `Map` objects are modelled as insertion-ordered association
  lists (`List (κ × α)`) with JS `Map.get` = first-key lookup and
  `Map.set` = overwrite-or-append.
* JavaScript numbers holding process percentages (`parseFloat` results) are
  modelled as exact rationals (`Rat`); pids, rss and timestamps as `Nat`.
* Fallible or possibly diverging code is modelled with `Option`:
  in particular the unguarded recursion of `getDescendantsFromTree` is
  given an explicit recursion-depth budget (`fuel`); a `none` result means
  the source function is still recursing at that depth, so a result of
  `none` for every budget models nontermination.
-/

namespace AgentWatch

/-- JS `Map.get` on an insertion-ordered association list. -/
def mapGet {α : Type} (m : List (Nat × α)) (k : Nat) : Option α :=
  (m.find? (fun e => e.1 = k)).map (·.2)

/-- JS `Map.get` for string keys. -/
def mapGetS {α : Type} (m : List (String × α)) (k : String) : Option α :=
  (m.find? (fun e => e.1 = k)).map (·.2)

/-- JS `Map.set` on an insertion-ordered association list: overwrite in place
if the key is present, else append. -/
def mapSet {α : Type} (m : List (Nat × α)) (k : Nat) (v : α) : List (Nat × α) :=
  match m with
  | [] => [(k, v)]
  | e :: rest => if e.1 = k then (k, v) :: rest else e :: mapSet rest k v

/-- JS `Map.set` for string keys. -/
def mapSetS {α : Type} (m : List (String × α)) (k : String) (v : α) : List (String × α) :=
  match m with
  | [] => [(k, v)]
  | e :: rest => if e.1 = k then (k, v) :: rest else e :: mapSetS rest k v

/-! ## Process table model (src/lib/tmux.ts)

`getProcessStatsBatch` runs `ps -axo pid,ppid,%cpu,%mem,rss` once and parses
each line into a pid, a parent pid and three numeric stats.  A parsed line is
modelled as a `PsRow`; the whole listing as a `List PsRow` ("process table").
-/

/-- One parsed row of the `ps -axo pid,ppid,%cpu,%mem,rss` listing
(tmux.ts:455-474, after the `isNaN(pid)` guard). -/
structure PsRow where
  pid : Nat
  ppid : Nat
  cpu : Rat
  mem : Rat
  rss : Nat
deriving Repr, DecidableEq

/-- The aggregated per-pid result record (src/lib/types.ts `ProcessStats`). -/
structure ProcessStats where
  pid : Nat
  cpu : Rat
  memory : Rat
  rss : Nat
deriving Repr, DecidableEq

/-- The `childrenMap` built at tmux.ts:451-474: for every row, the row's pid is
appended to the children list of the row's ppid.  Modelled as a total
function (JS `childrenMap.get(p) || []`). -/
def buildChildrenMap (rows : List PsRow) : Nat → List Nat :=
  rows.foldl (fun m r => fun q => if q = r.ppid then m r.ppid ++ [r.pid] else m q) (fun _ => [])

/-- The `statsMap` built at tmux.ts:467 (`statsMap.set(pid, …)`, later row wins). -/
def buildStatsMap (rows : List PsRow) : Nat → Option (Rat × Rat × Nat) :=
  rows.foldl (fun m r => fun q => if q = r.pid then some (r.cpu, r.mem, r.rss) else m q)
    (fun _ => none)

/-- Helper for the recursive walk: sequence the recursive calls of
`getDescendantsFromTree` over a children list, concatenating the results in
order (the `for (const child of children) descendants.push(…)` loop body at
tmux.ts:414-416). `none` propagates a blown recursion budget. -/
def descListAux (f : Nat → Option (List Nat)) : List Nat → Option (List Nat)
  | [] => some []
  | c :: cs =>
    match f c, descListAux f cs with
    | some d, some ds => some (d ++ ds)
    | _, _ => none

/-- Fuel-indexed embedding of `getDescendantsFromTree` (tmux.ts:411-418):

```ts
function getDescendantsFromTree(pid, childrenMap) {
  const children = childrenMap.get(pid) || [];
  const descendants = [...children];
  for (const child of children) {
    descendants.push(...getDescendantsFromTree(child, childrenMap));
  }
  return descendants;
}
```

The source recursion has no visited-set guard and no termination argument, so
the embedding takes an explicit recursion-depth budget; `none` means the
source function is still recursing at that depth.  On any input on which the
source terminates, the embedding returns `some` of the same list for every
sufficiently large budget. -/
def getDescendantsFromTree (m : Nat → List Nat) : Nat → Nat → Option (List Nat)
  | 0, _ => none
  | fuel+1, pid => (descListAux (getDescendantsFromTree m fuel) (m pid)).map (fun ds => m pid ++ ds)

/-- The loop body of the descendant summation at tmux.ts:489-496: add a
descendant's stats to the running totals, skipping descendants with no stats
row (`if (descStats)`). -/
def addStats (statsMap : Nat → Option (Rat × Rat × Nat)) (acc : Rat × Rat × Nat) (d : Nat) :
    Rat × Rat × Nat :=
  match statsMap d with
  | some s => (acc.1 + s.1, acc.2.1 + s.2.1, acc.2.2 + s.2.2)
  | none => acc

/-- The per-requested-pid body of `getProcessStatsBatch` (tmux.ts:480-504):
look up the pid's own stats (skip the pid if absent), walk its descendants,
and sum cpu/mem/rss over the pid and every walked descendant, skipping
descendants with no stats row. -/
def aggregateOne (rows : List PsRow) (fuel : Nat) (pid : Nat) : Option ProcessStats :=
  match buildStatsMap rows pid with
  | none => none
  | some own =>
    match getDescendantsFromTree (buildChildrenMap rows) fuel pid with
    | none => none
    | some descendants =>
      let totals := descendants.foldl (addStats (buildStatsMap rows)) (own.1, own.2.1, own.2.2)
      some ⟨pid, totals.1, totals.2.1, totals.2.2⟩

/-- The one-step parent→child relation of a children map. -/
def childRel (m : Nat → List Nat) (a b : Nat) : Prop := b ∈ m a

/-- Bounded reachability in a children map: `reachB m fuel a d = true` iff
`d` is reachable from `a` by between 1 and `fuel` parent→child steps.
Used only to state the transitive-closure sum; `reachB_iff_transGen` below
certifies that (for a large enough bound) it is exactly the transitive
closure of the parent→child relation. -/
def reachB (m : Nat → List Nat) : Nat → Nat → Nat → Bool
  | 0, _, _ => false
  | fuel+1, a, d => (m a).any (fun c => c == d || reachB m fuel c d)

/-- The spec's example table: pid 100 (cpu 1.0) with children 101 (cpu 2.0)
and 102 (cpu 3.0). -/
def scenarioRows : List PsRow :=
  [⟨100, 1, 1, 1, 10⟩, ⟨101, 100, 2, 2, 20⟩, ⟨102, 100, 3, 3, 30⟩]

/-- src/lib/types.ts `HookEntry`; the JSON payload is modelled as ordered
key/value pairs (its contents are irrelevant to the buffer logic). -/
structure HookEntry where
  id : String
  timestamp : String
  event : String
  payload : List (String × String)
deriving Repr, DecidableEq

def MAX_HOOKS_BUFFER : Nat := 100

/-- watch.ts:123-128 `addHookToBuffer`: push the entry, then if the length
exceeds 100 keep only the last 100 (`hooksBuffer.slice(-MAX_HOOKS_BUFFER)`). -/
def addHookToBuffer (buffer : List HookEntry) (hook : HookEntry) : List HookEntry :=
  let b := buffer ++ [hook]
  if MAX_HOOKS_BUFFER < b.length then b.drop (b.length - MAX_HOOKS_BUFFER) else b

/-! ## Classifier model (tmux.ts:403-608) -/

/-- src/lib/types.ts `AgentType`. -/
inductive AgentType where
  | claude
  | codex
  | gemini
deriving Repr, DecidableEq

/-- The string value of an `AgentType` (the TS type is a string union). -/
def agentTypeStr : AgentType → String
  | .claude => "claude"
  | .codex => "codex"
  | .gemini => "gemini"

/-- tmux.ts:404-408 `KNOWN_AGENTS`, in object-entry order. -/
def KNOWN_AGENTS : List (String × AgentType) :=
  [("claude", .claude), ("codex", .codex), ("gemini", .gemini)]

/-- One parsed row of the `ps -axo pid,ppid,comm,args` listing
(tmux.ts:544-561, after the regex match and the `isNaN(pid)` guard). -/
structure AgentRow where
  pid : Nat
  ppid : Nat
  comm : String
  args : String
deriving Repr, DecidableEq

/-- tmux.ts:520-523 `DetectedAgent` (`command` always carries the full
argument string of the matched process when constructed). -/
structure DetectedAgent where
  agent : AgentType
  command : String
deriving Repr, DecidableEq

/-- The `childrenMap` built at tmux.ts:541-561 from the comm/args listing. -/
def buildChildrenMapA (rows : List AgentRow) : Nat → List Nat :=
  rows.foldl (fun m r => fun q => if q = r.ppid then m r.ppid ++ [r.pid] else m q) (fun _ => [])

/-- JS `String.prototype.trim`: strip leading and trailing whitespace.
(Defined on the character list so that it evaluates by kernel reduction;
`String.trim` of the standard library is extensionally the same.) -/
def jsTrim (s : String) : String :=
  ⟨((s.data.dropWhile Char.isWhitespace).reverse.dropWhile Char.isWhitespace).reverse⟩

/-- The `processInfo` map of tmux.ts:555
(`processInfo.set(pid, { comm, args: args.trim() })`, later row wins). -/
def buildInfoMap (rows : List AgentRow) : Nat → Option (String × String) :=
  rows.foldl (fun m r => fun q => if q = r.pid then some (r.comm, jsTrim r.args) else m q)
    (fun _ => none)

/-- JS `String.prototype.toLowerCase` restricted to ASCII. -/
def lowerAscii (s : String) : String := ⟨s.data.map Char.toLower⟩

/-- JS `String.prototype.includes`: the needle occurs as a contiguous
substring of the haystack. -/
def strIncludes (hay needle : String) : Bool :=
  (List.range (hay.length + 1)).any (fun i => needle.data.isPrefixOf (hay.data.drop i))

/-- The per-process match of tmux.ts:574-593: exact lowercased command-name
lookup in `KNOWN_AGENTS` first; if that misses, the argument-string fallback
matching `"/name"` or `" name "` for each known agent in entry order. -/
def matchProcess (info : String × String) : Option DetectedAgent :=
  let commLower := lowerAscii info.1
  match KNOWN_AGENTS.lookup commLower with
  | some a => some ⟨a, info.2⟩
  | none =>
    let argsLower := lowerAscii info.2
    match KNOWN_AGENTS.find? (fun e =>
        strIncludes argsLower ("/" ++ e.1) || strIncludes argsLower (" " ++ e.1 ++ " ")) with
    | some e => some ⟨e.2, info.2⟩
    | none => none

/-- The first-match scan of tmux.ts:572-595 over a pid list: skip pids with
no process-info row, return the first successful per-process match. -/
def scanAgents (info : Nat → Option (String × String)) : List Nat → Option DetectedAgent
  | [] => none
  | q :: qs =>
    match info q with
    | none => scanAgents info qs
    | some i =>
      match matchProcess i with
      | some d => some d
      | none => scanAgents info qs

/-- The per-requested-pid body of `detectAgentsBatch` (tmux.ts:568-595): walk
the descendants (outer `none` = the walk's recursion never returns), then
scan `[pid, ...descendants]` in order for the first match. -/
def detectOne (rows : List AgentRow) (fuel : Nat) (pid : Nat) :
    Option (Option DetectedAgent) :=
  match getDescendantsFromTree (buildChildrenMapA rows) fuel pid with
  | none => none
  | some descendants => some (scanAgents (buildInfoMap rows) (pid :: descendants))

/-- Modelled from the spec's words, for comparison with the source's
traversal: the concatenated successive frontiers of a breadth-first
expansion of a children map ("breadth order from the root outward"). -/
def bfsLevels (m : Nat → List Nat) : Nat → List Nat → List Nat
  | 0, _ => []
  | fuel+1, frontier =>
    let next := frontier.flatMap m
    next ++ bfsLevels m fuel next

/-- Modelled from the spec's words: the breadth order from the root outward. -/
def bfsOrder (m : Nat → List Nat) (fuel : Nat) (pid : Nat) : List Nat :=
  pid :: bfsLevels m fuel [pid]

/-- Modelled from the spec's words: classification that examines processes in
breadth order from the root outward, with the source's per-process match. -/
def bfsDetect (rows : List AgentRow) (fuel : Nat) (pid : Nat) : Option DetectedAgent :=
  scanAgents (buildInfoMap rows) (bfsOrder (buildChildrenMapA rows) fuel pid)

/-- A process tree on which the source's traversal order and breadth order
disagree about which agent is found first: under pid 1, the claude process
(pid 5) sits at depth 3 below the first child, the codex process (pid 6) at
depth 2 below the second child. -/
def bfsRows : List AgentRow :=
  [⟨1, 0, "sh", ""⟩, ⟨2, 1, "sh", ""⟩, ⟨3, 1, "sh", ""⟩, ⟨4, 2, "sh", ""⟩,
   ⟨5, 4, "claude", "/usr/bin/claude"⟩, ⟨6, 3, "codex", "/usr/bin/codex"⟩]

/-! ## Cache model for the ProcessForest (tmux.ts:420-512, 526-602) -/

def STATS_CACHE_TTL : Nat := 5000

/-- tmux.ts:421 `statsCache`: the cached result map and its timestamp. -/
structure StatsCache where
  data : List (Nat × ProcessStats)
  timestamp : Nat
deriving Repr, DecidableEq

/-- JS `new Set(pids)` iteration order: first-occurrence order. -/
def setDedup : List Nat → List Nat
  | [] => []
  | x :: xs => x :: setDedup (xs.filter (fun y => y != x))
termination_by l => l.length
decreasing_by
  exact Nat.lt_succ_of_le (List.length_filter_le _ _)

/-- The compute path of `getProcessStatsBatch` (tmux.ts:439-507): aggregate
each pid of the deduplicated request set, skipping pids with no stats row. -/
def computeStatsBatch (rows : List PsRow) (fuel : Nat) (pids : List Nat) :
    List (Nat × ProcessStats) :=
  (setDedup pids).foldl (fun acc p =>
    match aggregateOne rows fuel p with
    | some s => mapSet acc p s
    | none => acc) []

/-- `getProcessStatsBatch` with its module-level `statsCache` threaded
explicitly (tmux.ts:420-512).  Inputs: cache state, the `Date.now()` sample,
the parsed `ps` table, the recursion budget and the requested pids.  Returns
(result, new cache state, number of `ps` invocations made by this call).
The `ps`-failure path (which returns an empty map and caches nothing) is not
modelled: the table is a pure input. -/
def getProcessStatsBatchC (cache : Option StatsCache) (now : Nat) (rows : List PsRow)
    (fuel : Nat) (pids : List Nat) :
    List (Nat × ProcessStats) × Option StatsCache × Nat :=
  if pids = [] then ([], cache, 0)
  else
    match cache with
    | some c =>
      if now - c.timestamp < STATS_CACHE_TTL then
        (pids.foldl (fun acc p =>
          match mapGet c.data p with
          | some s => mapSet acc p s
          | none => acc) [], some c, 0)
      else
        (computeStatsBatch rows fuel pids, some ⟨computeStatsBatch rows fuel pids, now⟩, 1)
    | none =>
      (computeStatsBatch rows fuel pids, some ⟨computeStatsBatch rows fuel pids, now⟩, 1)

/-- `detectAgentsBatch` (tmux.ts:526-602) keeps no cache: every call with a
nonempty pid list spawns its own `ps` invocation.  Returns (result, number
of `ps` invocations made by this call). -/
def detectAgentsBatchC (rows : List AgentRow) (fuel : Nat) (pids : List Nat) :
    List (Nat × DetectedAgent) × Nat :=
  if pids = [] then ([], 0)
  else
    ((setDedup pids).foldl (fun acc p =>
      match detectOne rows fuel p with
      | some (some d) => mapSet acc p d
      | _ => acc) [], 1)

/-- A request against the ProcessForest subsystem - Aggregate or Classify -
paired with the `Date.now()` sample at which it is made. -/
inductive PsRequest where
  | aggregate (pids : List Nat)
  | classify (pids : List Nat)
deriving Repr, DecidableEq

/-- One request step: threads the stats cache, counts `ps` invocations. -/
def stepRequest (rows : List PsRow) (arows : List AgentRow) (fuel : Nat)
    (cache : Option StatsCache) (req : Nat × PsRequest) : Option StatsCache × Nat :=
  match req.2 with
  | .aggregate pids => (getProcessStatsBatchC cache req.1 rows fuel pids).2
  | .classify pids => (cache, (detectAgentsBatchC arows fuel pids).2)

/-- Run a sequence of timestamped requests from a given cache state,
returning the final cache state and the total number of `ps` invocations. -/
def runRequests (rows : List PsRow) (arows : List AgentRow) (fuel : Nat) :
    Option StatsCache → List (Nat × PsRequest) → Option StatsCache × Nat
  | cache, [] => (cache, 0)
  | cache, r :: rs =>
    ((runRequests rows arows fuel (stepRequest rows arows fuel cache r).1 rs).1,
      (stepRequest rows arows fuel cache r).2
        + (runRequests rows arows fuel (stepRequest rows arows fuel cache r).1 rs).2)

/-- A trace consisting only of Aggregate requests. -/
def aggTrace (reqs : List (Nat × List Nat)) : List (Nat × PsRequest) :=
  reqs.map (fun r => (r.1, PsRequest.aggregate r.2))

/-! ## Session model (src/lib/types.ts) and the agent classifier of watch.ts -/

/-- src/lib/types.ts `TmuxPaneInfo`.  Numeric fields parsed with `parseInt`
are `Option` (`none` = `undefined`); `panePid` folds the JS-falsy parses
(`undefined`, `NaN`, `0`) into `none`, matching every use site's
`if (pane.panePid)` guard. -/
structure TmuxPaneInfo where
  sessionName : String
  windowIndex : Option Int
  windowName : String
  paneIndex : Option Int
  paneId : String
  panePid : Option Nat
  active : Bool
  command : Option String
  cwd : Option String
  idleSeconds : Option Nat
deriving Repr, DecidableEq

/-- src/lib/types.ts `TmuxWindowInfo`. -/
structure TmuxWindowInfo where
  sessionName : String
  index : Option Int
  name : String
  active : Bool
  panes : List TmuxPaneInfo
deriving Repr, DecidableEq

/-- src/lib/types.ts `TmuxSessionInfo`. -/
structure TmuxSessionInfo where
  name : String
  windows : Option Int
  attached : Bool
  created : Option Int
  activity : Option Int
  windowList : List TmuxWindowInfo
deriving Repr, DecidableEq

/-- src/lib/types.ts `SessionMetaEntry` (read-only metadata collaborator). -/
structure SessionMetaEntry where
  id : String
  timestamp : String
  sessionName : String
  agent : Option AgentType
  promptPreview : Option String
  cwd : Option String
  tag : Option String
  planId : Option String
  taskId : Option String
  status : Option String
  renamedFrom : Option String
  source : Option String
deriving Repr, DecidableEq

/-- watch.ts:51 `AGENT_COMMANDS`. -/
def AGENT_COMMANDS : List String := ["claude", "codex", "gemini", "node", "bun"]

/-- watch.ts:53-56 `isAgentCommand` (`!cmd` covers `undefined` and `""`). -/
def isAgentCommand (cmd : Option String) : Bool :=
  match cmd with
  | none => false
  | some c => if c = "" then false else AGENT_COMMANDS.contains (lowerAscii c)

/-- watch.ts:554-559 `getFilteredWindows`: with the agents-only filter on,
drop non-agent panes and windows left with no panes. -/
def getFilteredWindows (session : TmuxSessionInfo) (agentsOnly : Bool) :
    List TmuxWindowInfo :=
  if !agentsOnly then session.windowList
  else
    (session.windowList.map
      (fun w => { w with panes := w.panes.filter (fun p => isAgentCommand p.command) })).filter
      (fun w => decide (0 < w.panes.length))

/-- The nested pane loop of watch.ts:639-650: the first pane (window order,
then pane order) with a truthy pid that the detection map knows. -/
def paneScan (windows : List TmuxWindowInfo) (detectedAgents : List (Nat × DetectedAgent)) :
    Option DetectedAgent :=
  windows.findSome? (fun w => w.panes.findSome? (fun p => p.panePid.bind (mapGet detectedAgents)))

/-- The live-scan tier of `getSessionAgent` (watch.ts:638-650): on a hit,
memoize the detected agent under the session name. -/
def getSessionAgentScan (session : TmuxSessionInfo)
    (detectedAgents : List (Nat × DetectedAgent)) (agentCache : List (String × String))
    (agentsOnly : Bool) : Option String × List (String × String) :=
  match paneScan (getFilteredWindows session agentsOnly) detectedAgents with
  | some d => (some (agentTypeStr d.agent),
      mapSetS agentCache session.name (agentTypeStr d.agent))
  | none => (none, agentCache)

/-- watch.ts:624-653 `getSessionAgent`: explicit `meta.agent` first, then the
memo cache (a JS-falsy `""` entry falls through), then the live scan, whose
hit is written into the memo cache.  Returns the reported agent name and the
(possibly updated) cache, modelling the in-place `agentCache.set`. -/
def getSessionAgent (session : TmuxSessionInfo) (meta : Option SessionMetaEntry)
    (detectedAgents : List (Nat × DetectedAgent)) (agentCache : List (String × String))
    (agentsOnly : Bool) : Option String × List (String × String) :=
  match meta.bind SessionMetaEntry.agent with
  | some a => (some (agentTypeStr a), agentCache)
  | none =>
    match mapGetS agentCache session.name with
    | some c =>
      if c = "" then getSessionAgentScan session detectedAgents agentCache agentsOnly
      else (some c, agentCache)
    | none => getSessionAgentScan session detectedAgents agentCache agentsOnly

/-- A one-pane concrete session used to instantiate the classifier claims. -/
def wPane : TmuxPaneInfo :=
  ⟨"s1", some 0, "w", some 0, "%1", some 42, true, some "claude", none, none⟩

def wWindow : TmuxWindowInfo := ⟨"s1", some 0, "w", true, [wPane]⟩

def wSession : TmuxSessionInfo := ⟨"s1", some 1, false, some 0, some 0, [wWindow]⟩

def wMeta : SessionMetaEntry :=
  ⟨"m1", "", "s1", some AgentType.codex, none, none, none, none, none, none, none, none⟩

def wDet : List (Nat × DetectedAgent) := [(42, ⟨AgentType.claude, "claude"⟩)]

/-- The viewport-scroll clamp of `renderSessions` (watch.ts:763-784): given
the number of content lines, the panel's line budget `maxLines`, the
selected content-line index (`none` when nothing is selected) and the
incoming scroll offset, return the scroll offset actually used.  When the
content fits the budget the offset is reset to 0 and no scrolling happens;
otherwise two lines are reserved for the scroll indicators
(`effectiveMaxLines = max 1 (maxLines - 2)` visible content lines), the
offset is adjusted minimally to bring the selection into view, then clamped
to `[0, max 0 (contentCount - effectiveMaxLines)]`. -/
def clampScrollOffset (contentCount maxLines : Nat) (sel : Option Nat) (off : Nat) : Nat :=
  if contentCount ≤ maxLines then 0
  else
    max 0 (min
      (match sel with
       | some s =>
         if s < off then s
         else if off + max 1 (maxLines - 2) ≤ s then s - max 1 (maxLines - 2) + 1
         else off
       | none => off)
      (max 0 (contentCount - max 1 (maxLines - 2))))

/-! ## Pane-line parsing of listSessions (tmux.ts:80-118) -/

/-- JS `parseInt(s, 10)`: skip leading whitespace, optional sign, then the
longest digit prefix; `none` models `NaN`. -/
def parseIntJS (s : String) : Option Int :=
  match s.data.dropWhile Char.isWhitespace with
  | [] => none
  | c :: rest =>
    let signed : Bool × List Char :=
      if c = '-' then (true, rest) else if c = '+' then (false, rest) else (false, c :: rest)
    let ds := signed.2.takeWhile Char.isDigit
    if ds = [] then none
    else
      let n : Nat := ds.foldl (fun acc d => acc * 10 + (d.toNat - '0'.toNat)) 0
      some (if signed.1 then -(n : Int) else (n : Int))

/-- tmux.ts:111 `panePid: panePid ? parseInt(panePid, 10) : undefined`, with
the JS-falsy results (`NaN`, `0`) folded into `none` as in `TmuxPaneInfo`. -/
def panePidOf (s : String) : Option Nat :=
  if s = "" then none
  else
    match parseIntJS s with
    | some n => if n ≤ 0 then none else some n.toNat
    | none => none

/-- tmux.ts:115 `idleSeconds: idle && !isNaN(parseInt(idle, 10)) ? … :
undefined` (negative idle does not occur; folded like `panePidOf`). -/
def idleOf (s : String) : Option Nat :=
  if s = "" then none
  else
    match parseIntJS s with
    | some n => if n < 0 then none else some n.toNat
    | none => none

/-- The mutable state of the pane-grouping pass of `listSessions`
(tmux.ts:59-118).  JS shares window objects between `windowMap` and each
session's `windowList`; the model keeps each window's data once, in
`windowMap`, and records per session the ordered keys of its windows. -/
structure PaneParseState where
  sessions : List (String × (TmuxSessionInfo × List String))
  windowMap : List (String × TmuxWindowInfo)
deriving Repr, DecidableEq

/-- JS `String.prototype.split` with a single-character separator, on the
character list so that it evaluates by kernel reduction (splitting `""`
yields `[""]`, like JS). -/
def splitCharList (sep : Char) : List Char → List (List Char)
  | [] => [[]]
  | c :: rest =>
    let r := splitCharList sep rest
    if c = sep then [] :: r
    else
      match r with
      | h :: t => (c :: h) :: t
      | [] => [[c]]

/-- JS `line.split("\t")`. -/
def jsSplitTab (s : String) : List String := (splitCharList '\t' s.data).map (fun l => ⟨l⟩)

/-- One iteration of the pane loop (tmux.ts:81-117): split the line on tabs;
a line with fewer than 11 fields is skipped wholesale (`continue`); a pane
of a filtered-out session is discarded; otherwise the pane is appended to
its window, creating the window (and appending it to its session's window
list) on first sight. -/
def paneStep (st : PaneParseState) (line : String) : PaneParseState :=
  match jsSplitTab line with
  | sessionName :: windowIndex :: windowName :: windowActive :: paneIndex :: paneId ::
      panePid :: paneActive :: command :: cwd :: idle :: _ =>
    match mapGetS st.sessions sessionName with
    | none => st
    | some (session, keys) =>
      let windowKey := sessionName ++ ":" ++ windowIndex
      let pane : TmuxPaneInfo :=
        { sessionName := sessionName, windowIndex := parseIntJS windowIndex,
          windowName := windowName, paneIndex := parseIntJS paneIndex, paneId := paneId,
          panePid := panePidOf panePid, active := paneActive = "1",
          command := some command, cwd := some cwd, idleSeconds := idleOf idle }
      match mapGetS st.windowMap windowKey with
      | some w =>
        let w2 : TmuxWindowInfo := { w with panes := w.panes ++ [pane] }
        { st with windowMap := mapSetS st.windowMap windowKey w2 }
      | none =>
        let w : TmuxWindowInfo :=
          { sessionName := sessionName, index := parseIntJS windowIndex,
            name := windowName, active := windowActive = "1", panes := [pane] }
        { st with
          windowMap := mapSetS st.windowMap windowKey w,
          sessions := mapSetS st.sessions sessionName (session, keys ++ [windowKey]) }
  | _ => st

/-- The whole pane-grouping pass over the pane-listing output lines. -/
def processPaneLines (st : PaneParseState) (lines : List String) : PaneParseState :=
  lines.foldl paneStep st

/-! ## The session-panel renderer (watch.ts:20-34, 130-148, 593-615, 618-622, 655-799)

The renderer is embedded as a pure function of the state slice it reads, the
fetched collaborator data, and an explicit `now : Int` sample standing for the
`Math.floor(Date.now() / 1000)` read at watch.ts:665.  The in-place writes to
`state.scrollOffset` (watch.ts:767/784) and to `state.agentCache` (through
`getSessionAgent`, watch.ts:645) are returned as the second and third
components. -/

/-- watch.ts:20-34 `ANSI.bold`. -/
def ansiBold : String := "\x1b[1m"

/-- watch.ts:20-34 `ANSI.dim`. -/
def ansiDim : String := "\x1b[2m"

/-- watch.ts:20-34 `ANSI.inverse`. -/
def ansiInverse : String := "\x1b[7m"

/-- watch.ts:20-34 `ANSI.green`. -/
def ansiGreen : String := "\x1b[32m"

/-- watch.ts:20-34 `ANSI.yellow`. -/
def ansiYellow : String := "\x1b[33m"

/-- watch.ts:20-34 `ANSI.blue`. -/
def ansiBlue : String := "\x1b[34m"

/-- watch.ts:20-34 `ANSI.cyan`. -/
def ansiCyan : String := "\x1b[36m"

/-- watch.ts:20-34 `ANSI.magenta`. -/
def ansiMagenta : String := "\x1b[35m"

/-- watch.ts:20-34 `ANSI.reset`. -/
def ansiReset : String := "\x1b[0m"

/-- JS `String.prototype.length` (code points; all characters involved are in
the basic plane, where this agrees with UTF-16 length). -/
def jsLen (s : String) : Nat := s.data.length

/-- JS `s.slice(a, b)` for non-negative indices. -/
def jsSlice (s : String) (a b : Nat) : String := ⟨(s.data.take b).drop a⟩

/-- JS `String.prototype.trimEnd`. -/
def jsTrimEnd (s : String) : String :=
  ⟨(s.data.reverse.dropWhile Char.isWhitespace).reverse⟩

/-- JS `s.repeat(n)` (watch.ts:678 `"─".repeat(35)`). -/
def strRepeat (s : String) : Nat → String
  | 0 => ""
  | n + 1 => s ++ strRepeat s n

/-- JS `Array.prototype.join(sep)` on strings. -/
def joinStr (sep : String) : List String → String
  | [] => ""
  | [a] => a
  | a :: rest => a ++ sep ++ joinStr sep rest

/-- JS truthiness of a `string | undefined` value: defined and nonempty. -/
def truthyS : Option String → Bool
  | some s => s ≠ ""
  | none => false

/-- JS template-literal rendering of a parsed number field (`Option Int`,
with `none` standing for `NaN`, which prints as `"NaN"`). -/
def jsNumStr : Option Int → String
  | some i => toString i
  | none => "NaN"

/-- watch.ts:130-135 `formatDuration`. -/
def formatDuration (seconds : Int) : String :=
  if seconds < 60 then toString seconds ++ "s"
  else if seconds < 3600 then toString (seconds / 60) ++ "m"
  else if seconds < 86400 then toString (seconds / 3600) ++ "h"
  else toString (seconds / 86400) ++ "d"

/-- JS `x.toFixed(1)` for the non-negative exact rationals produced by the
embedding: round to one decimal, ties to the larger value (ECMA-262 chooses
the larger n on a tie; artifacts of binary-double representation are not
modelled). -/
def toFixed1 (x : Rat) : String :=
  toString (Rat.floor (x * 10 + 1 / 2) / 10) ++ "." ++
    toString (Rat.floor (x * 10 + 1 / 2) % 10)

/-- JS `x.toFixed(0)`, same rounding convention as `toFixed1`. -/
def toFixed0 (x : Rat) : String := toString (Rat.floor (x + 1 / 2))

/-- watch.ts:137-141 `formatMemory` (`kb` is the integer RSS column). -/
def formatMemory (kb : Nat) : String :=
  if kb < 1024 then toString kb ++ "K"
  else if kb < 1024 * 1024 then toFixed1 ((kb : Rat) / 1024) ++ "M"
  else toFixed1 ((kb : Rat) / (1024 * 1024)) ++ "G"

/-- watch.ts:143-148 `formatStats`. -/
def formatStats (stats : Option ProcessStats) : String :=
  match stats with
  | none => ""
  | some st =>
    ansiCyan ++ "cpu:" ++ (if 0 < st.cpu then toFixed0 st.cpu ++ "%" else "0%")
      ++ " mem:" ++ formatMemory st.rss ++ ansiReset

/-- watch.ts:593-597 `shortId` (called only with the default `maxLen = 8`). -/
def shortId (id : String) : String :=
  match (splitCharList '_' id.data).map (fun l => (⟨l⟩ : String)) with
  | _ :: b :: _ => if 8 < jsLen b then jsSlice b 0 8 else b
  | _ => if 8 < jsLen id then jsSlice id 0 8 else id

/-- watch.ts:599-602 `truncateLine`. -/
def truncateLine (input : String) (maxLen : Nat) : String :=
  if jsLen input ≤ maxLen then input else jsSlice input 0 (maxLen - 3) ++ "..."

/-- watch.ts:604-615 `formatSessionMeta` (each field is appended only when
JS-truthy, i.e. defined and nonempty). -/
def formatSessionMeta (meta : Option SessionMetaEntry) : Option String :=
  match meta with
  | none => none
  | some m =>
    let parts : List String :=
      (if truthyS m.tag then ["tag:" ++ m.tag.getD ""] else []) ++
      (if truthyS m.status then ["status:" ++ m.status.getD ""] else []) ++
      (if truthyS m.taskId then [m.taskId.getD ""] else []) ++
      (if truthyS m.planId then ["plan:" ++ shortId (m.planId.getD "")] else [])
    let label := if 0 < parts.length then "[" ++ joinStr " " parts ++ "]" else ""
    let combined := jsTrim (label ++ " " ++ m.promptPreview.getD "")
    if 0 < jsLen combined then some combined else none

/-- watch.ts:618-622 `AGENT_COLORS[name]`, with the `|| ANSI.blue` fallback of
watch.ts:704/746. -/
def agentColorOf (name : String) : String :=
  if name = "claude" then ansiMagenta
  else if name = "codex" then ansiCyan
  else if name = "gemini" then ansiYellow
  else ansiBlue

/-- watch.ts:79 `FocusPanel`. -/
inductive FocusPanel where
  | sessions
  | hooks
deriving Repr, DecidableEq

/-- The slice of watch.ts:82-117 `WatchState` that `renderSessions` reads or
writes. -/
structure RenderState where
  filter : Option String
  showLastLine : Bool
  showStats : Bool
  agentsOnly : Bool
  expandAll : Bool
  showHooks : Bool
  focusPanel : FocusPanel
  selectedIndex : Nat
  scrollOffset : Nat
  visibleSessions : List TmuxSessionInfo
  sessionMeta : List (String × SessionMetaEntry)
  agentCache : List (String × String)
deriving Repr, DecidableEq

/-- The per-call read-only inputs of the session loop of `renderSessions`
(state flags plus the fetched collaborator maps and the clock sample),
gathered so the loop helpers share one argument. -/
structure RenderCtx where
  showLastLine : Bool
  showStats : Bool
  agentsOnly : Bool
  expandAll : Bool
  selectedIndex : Nat
  metaMap : List (String × SessionMetaEntry)
  capturedLines : List (String × Option String)
  processStats : List (Nat × ProcessStats)
  detectedAgents : List (Nat × DetectedAgent)
  now : Int

/-- The session line of watch.ts:697-723 (built identically in the collapsed
and expanded branches).  `session.created` is JS-falsy when absent or `0`. -/
def sessionMainLine (now : Int) (isSelected : Bool) (session : TmuxSessionInfo)
    (meta : Option SessionMetaEntry) (agentName : Option String) : String :=
  let attachIcon := if session.attached then ansiGreen ++ "●" ++ ansiReset
    else ansiDim ++ "○" ++ ansiReset
  let durationSec : Int :=
    match session.created with
    | some c => if c = 0 then 0 else now - c
    | none => 0
  let durationStr := if 0 < durationSec then ansiDim ++ formatDuration durationSec ++ ansiReset
    else ""
  let statusBadge :=
    match meta with
    | some m => if m.status = some "done" then ansiDim ++ "[done]" ++ ansiReset else ""
    | none => ""
  let agentBadge :=
    match agentName with
    | some a => if a = "" then "" else agentColorOf a ++ "[" ++ a ++ "]" ++ ansiReset
    | none => ""
  let selectMark := if isSelected then ansiInverse ++ "►" ++ ansiReset else " "
  let namePart := if isSelected then ansiBold ++ ansiYellow ++ session.name ++ ansiReset
    else ansiBold ++ session.name ++ ansiReset
  jsTrimEnd (selectMark ++ attachIcon ++ " " ++ namePart ++ " " ++ agentBadge ++ " "
    ++ durationStr ++ (if statusBadge = "" then "" else " " ++ statusBadge))

/-- The pane lines of watch.ts:737-759: the pane line itself and, with
`showLastLine` on and a truthy captured line, the preview line under it. -/
def paneLines (ctx : RenderCtx) (agentName : Option String) (sessionName : String)
    (windowIndex : Option Int) (showWindowLine : Bool) (pane : TmuxPaneInfo) : List String :=
  let indent := if showWindowLine then "    " else "  "
  let paneActive := if pane.active then ansiGreen ++ "›" ++ ansiReset else " "
  let cmdStr :=
    match pane.command with
    | some c => if c = "" then "" else ansiBlue ++ c ++ ansiReset
    | none => ""
  let statsStr :=
    if ctx.showStats then
      match pane.panePid with
      | some p => " " ++ formatStats (mapGet ctx.processStats p)
      | none => ""
    else ""
  let paneAgentStr :=
    match pane.panePid.bind (mapGet ctx.detectedAgents) with
    | some d =>
      if agentName = some (agentTypeStr d.agent) then ""
      else " " ++ agentColorOf (agentTypeStr d.agent) ++ "(" ++ agentTypeStr d.agent ++ ")"
        ++ ansiReset
    | none => ""
  let lastLines :=
    if ctx.showLastLine then
      match mapGetS ctx.capturedLines
          (sessionName ++ ":" ++ jsNumStr windowIndex ++ "." ++ jsNumStr pane.paneIndex) with
      | some (some l) =>
        if l = "" then []
        else [indent ++ " " ++ ansiDim ++ jsSlice l 0 38
          ++ (if 38 < jsLen l then "…" else "") ++ ansiReset]
      | _ => []
    else []
  (indent ++ paneActive ++ cmdStr ++ paneAgentStr ++ statsStr) :: lastLines

/-- The window block of watch.ts:730-760: the window line is shown only when
the session has several filtered windows or this window has several panes. -/
def windowLines (ctx : RenderCtx) (agentName : Option String) (sessionName : String)
    (manyWindows : Bool) (w : TmuxWindowInfo) : List String :=
  (if manyWindows || decide (1 < w.panes.length) then
    ["   " ++ (if w.active then ansiYellow ++ "*" ++ ansiReset else " ")
      ++ jsNumStr w.index ++ ":" ++ ansiCyan ++ w.name ++ ansiReset]
   else []) ++
  w.panes.flatMap
    (paneLines ctx agentName sessionName w.index (manyWindows || decide (1 < w.panes.length)))

/-- The lines one session contributes (watch.ts:689-761): the session line
only when collapsed, else the session line, the optional metadata line, and
the filtered window blocks. -/
def sessionBlock (ctx : RenderCtx) (i : Nat) (session : TmuxSessionInfo)
    (agentName : Option String) : List String :=
  let isExpanded := ctx.expandAll || decide (i = ctx.selectedIndex)
  let meta := mapGetS ctx.metaMap session.name
  let mainLine := sessionMainLine ctx.now (decide (i = ctx.selectedIndex)) session meta agentName
  if isExpanded = false then [mainLine]
  else
    mainLine ::
      ((match formatSessionMeta meta with
        | some ml => ["   " ++ ansiDim ++ truncateLine ml 80 ++ ansiReset]
        | none => []) ++
       (getFilteredWindows session ctx.agentsOnly).flatMap
         (windowLines ctx agentName session.name
           (decide (1 < (getFilteredWindows session ctx.agentsOnly).length))))

/-- The `getSessionAgent` calls of the session loop (watch.ts:703), threading
the memo cache mutated in place by the source: the per-session agent names in
order, and the final cache. -/
def agentLoop (metaMap : List (String × SessionMetaEntry))
    (da : List (Nat × DetectedAgent)) (ao : Bool) :
    List TmuxSessionInfo → List (String × String) →
      List (Option String) × List (String × String)
  | [], c => ([], c)
  | s :: ss, c =>
    match getSessionAgent s (mapGetS metaMap s.name) da c ao with
    | (r, c2) =>
      match agentLoop metaMap da ao ss c2 with
      | (rs, cf) => (r :: rs, cf)

/-- The content lines of the session loop (watch.ts:689-761) together with
`selectedLineIndex` (watch.ts:686/715/722, `none` for `-1`): the index,
relative to the content start, of the selected session's line. -/
def buildBlocks (ctx : RenderCtx) :
    Nat → List TmuxSessionInfo → List (Option String) → List String × Option Nat
  | _, [], _ => ([], none)
  | _, _ :: _, [] => ([], none)
  | i, s :: ss, n :: ns =>
    match buildBlocks ctx (i + 1) ss ns with
    | (ls, sel) =>
      (sessionBlock ctx i s n ++ ls,
       if i = ctx.selectedIndex then some 0
       else sel.map (fun x => (sessionBlock ctx i s n).length + x))

/-- The scrolled body of watch.ts:787-798, at an already-clamped offset. -/
def scrollText (h1 h2 : String) (content : List String) (so maxLines : Nat) : String :=
  joinStr "\n" ([h1, h2]
    ++ (if 0 < so then [ansiDim ++ "↑ more" ++ ansiReset] else [])
    ++ (content.drop so).take (max 1 (maxLines - 2))
    ++ (if so + max 1 (maxLines - 2) < content.length then
          [ansiDim ++ "↓ " ++ toString (content.length - so - max 1 (maxLines - 2))
            ++ " more" ++ ansiReset]
        else [])) ++ "\n"

/-- The viewport step of watch.ts:763-798: when the content fits, the stored
offset is reset to 0 and everything is shown; otherwise the offset is clamped
(`clampScrollOffset` embeds watch.ts:772-784) and the visible window plus the
scroll indicators are emitted. -/
def renderScroll (h1 h2 : String) (content : List String) (sel : Option Nat)
    (off maxLines : Nat) : String × Nat :=
  if content.length ≤ maxLines then (joinStr "\n" (h1 :: h2 :: content) ++ "\n", 0)
  else
    (scrollText h1 h2 content (clampScrollOffset content.length maxLines sel off) maxLines,
     clampScrollOffset content.length maxLines sel off)

/-- The header line of watch.ts:670-677. -/
def renderHeader (filter : Option String) (agentsOnly expandAll showHooks : Bool)
    (focus : FocusPanel) : String :=
  (if showHooks && decide (focus = FocusPanel.sessions) then
     ansiGreen ++ "▶" ++ ansiReset ++ " "
   else if showHooks then "  " else "")
  ++ ansiBold ++ "Sessions" ++ ansiReset
  ++ (if truthyS filter then " " ++ ansiDim ++ "(" ++ filter.getD "" ++ ")" ++ ansiReset else "")
  ++ (if agentsOnly then " " ++ ansiMagenta ++ "[agents]" ++ ansiReset else "")
  ++ (if expandAll = false then " " ++ ansiDim ++ "[collapsed]" ++ ansiReset else "")
  ++ (if showHooks && decide (focus = FocusPanel.sessions) then
        " " ++ ansiDim ++ "Tab:hooks" ++ ansiReset
      else "")

/-- The rule line of watch.ts:678. -/
def headerRule : String := ansiDim ++ strRepeat "─" 35 ++ ansiReset

/-- watch.ts:655-799 `renderSessions`, over the destructured state slice:
returns the text, the written-back `state.scrollOffset` (untouched on the
empty-session early return of watch.ts:680-683) and the written-back
`state.agentCache`. -/
def renderSessionsCore (ctx : RenderCtx) (filter : Option String) (showHooks : Bool)
    (focus : FocusPanel) (sessions : List TmuxSessionInfo) (scrollOffset : Nat)
    (agentCache : List (String × String)) (maxLines : Nat) :
    String × Nat × List (String × String) :=
  if sessions.length = 0 then
    (joinStr "\n" [renderHeader filter ctx.agentsOnly ctx.expandAll showHooks focus,
        headerRule, ansiDim ++ "No sessions found" ++ ansiReset] ++ "\n",
     scrollOffset, agentCache)
  else
    match agentLoop ctx.metaMap ctx.detectedAgents ctx.agentsOnly sessions agentCache with
    | (names, cache2) =>
      match buildBlocks ctx 0 sessions names with
      | (content, sel) =>
        match renderScroll (renderHeader filter ctx.agentsOnly ctx.expandAll showHooks focus)
            headerRule content sel scrollOffset maxLines with
        | (text, so) => (text, so, cache2)

/-- watch.ts:655-799 `renderSessions` on the state record, with the
`Date.now()` read of watch.ts:665 as the explicit final argument. -/
def renderSessions (state : RenderState) (capturedLines : List (String × Option String))
    (processStats : List (Nat × ProcessStats)) (detectedAgents : List (Nat × DetectedAgent))
    (maxLines : Nat) (now : Int) : String × Nat × List (String × String) :=
  renderSessionsCore
    { showLastLine := state.showLastLine, showStats := state.showStats,
      agentsOnly := state.agentsOnly, expandAll := state.expandAll,
      selectedIndex := state.selectedIndex, metaMap := state.sessionMeta,
      capturedLines := capturedLines, processStats := processStats,
      detectedAgents := detectedAgents, now := now }
    state.filter state.showHooks state.focusPanel state.visibleSessions
    state.scrollOffset state.agentCache maxLines

/-- A one-session fixture state for the renderer claims: no windows, created
at epoch second 7, nothing cached. -/
def c7Session : TmuxSessionInfo :=
  { name := "s", windows := some 1, attached := false, created := some 7,
    activity := some 7, windowList := [] }

def c7State : RenderState :=
  { filter := none, showLastLine := false, showStats := false, agentsOnly := false,
    expandAll := true, showHooks := false, focusPanel := FocusPanel.sessions,
    selectedIndex := 0, scrollOffset := 0, visibleSessions := [c7Session],
    sessionMeta := [], agentCache := [] }

/-! ## The interactive key handler (watch.ts:1256-1536)

The stdin handler is embedded as a step function on the state slice it reads
and writes synchronously.  The awaited collaborator calls (`attachToSession`,
`killSession`, `markSessionDone`, `cleanup`) act outside this slice — they
touch no modal flag, no selection and no popup/editor field — and are
modelled as identity on the slice. -/

/-- lib/notify `DEFAULT_TITLE_TEMPLATE`. -/
def DEFAULT_TITLE_TEMPLATE : String := "\x7bdir\x7d: \x7bevent\x7d"

/-- lib/notify `DEFAULT_MESSAGE_TEMPLATE`. -/
def DEFAULT_MESSAGE_TEMPLATE : String := "\x7btool\x7d: \x7bdetail\x7d"

/-- watch.ts:58 `SortMode`. -/
inductive SortMode where
  | name
  | created
  | activity
deriving Repr, DecidableEq

/-- watch.ts:60 `REFRESH_PRESETS`. -/
def REFRESH_PRESETS : List Nat := [1000, 2000, 5000, 10000]

/-- The `key` values of watch.ts:63-77 `FILTER_OPTIONS`, in order. -/
def FILTER_KEYS : List String :=
  ["PreToolUse", "PostToolUse", "PostToolUseFailure", "PermissionRequest",
   "SessionStart", "SessionEnd", "Stop", "SubagentStop",
   "UserPromptSubmit", "Notification"]

/-- JS `Set.has` on the insertion-ordered element list. -/
def setHas (l : List String) (k : String) : Bool := l.contains k

/-- JS `Set.add`. -/
def setAdd (l : List String) (k : String) : List String :=
  if l.contains k then l else l ++ [k]

/-- JS `Set.delete`. -/
def setDelete (l : List String) (k : String) : List String :=
  l.filter (fun x => x ≠ k)

/-- JS `s.slice(a)` for a non-negative index. -/
def jsSliceFrom (s : String) (a : Nat) : String := ⟨s.data.drop a⟩

/-- JS `value || default` on an optional template string (both `undefined`
and `""` are falsy). -/
def orDefault (o : Option String) (d : String) : String :=
  match o with
  | some t => if t = "" then d else t
  | none => d

/-- The state slice of watch.ts:82-117 `WatchState` that the stdin handler
(watch.ts:1256-1536) reads or writes synchronously.  Of the session and hook
collections only the lengths are consulted (watch.ts:1258-1259, 1475, 1480);
`templateEditorField` is `true` for `"title"`; `notifyConfig` is inlined. -/
structure WState where
  showHelp : Bool
  showDetailedHelp : Bool
  detailedHelpScrollOffset : Nat
  showFilterPopup : Bool
  filterPopupIndex : Nat
  filterPopupSelected : List String
  showTemplateEditor : Bool
  templateEditorFieldTitle : Bool
  templateEditorValue : String
  templateEditorCursor : Nat
  showHooks : Bool
  showHookDetail : Bool
  hookScrollOffset : Nat
  agentsOnly : Bool
  expandAll : Bool
  showLastLine : Bool
  showStats : Bool
  sortBy : Option SortMode
  intervalMs : Nat
  focusPanel : FocusPanel
  selectedIndex : Nat
  selectedHookIndex : Nat
  hooksEnabled : Bool
  notifyDesktop : Bool
  notifyFilter : Option (List String)
  titleTemplate : Option String
  messageTemplate : Option String
  visibleSessionsCount : Nat
  recentHooksCount : Nat
deriving Repr, DecidableEq

/-- The five modal sub-states of the TUI; the exclusivity claims count the
open ones. -/
def modalCount (st : WState) : Nat :=
  (if st.showTemplateEditor then 1 else 0) + (if st.showFilterPopup then 1 else 0) +
  (if st.showDetailedHelp then 1 else 0) + (if st.showHookDetail then 1 else 0) +
  (if st.showHelp then 1 else 0)

/-- watch.ts:1262: the raw escape chunks recognised by the handler. -/
def isEscape (key : String) : Bool := key = "\x1b" || key = "\x1b\x1b"

/-- The escape block (watch.ts:1262-1289): the first open modal in the order
template editor, filter popup, detailed help, hook detail, help is closed and
the handler returns (`some`); with no modal open the block falls through
(`none`). -/
def escStep (st : WState) : Option WState :=
  if st.showTemplateEditor then some { st with showTemplateEditor := false }
  else if st.showFilterPopup then some { st with showFilterPopup := false }
  else if st.showDetailedHelp then
    some { st with showDetailedHelp := false, detailedHelpScrollOffset := 0 }
  else if st.showHookDetail then some { st with showHookDetail := false }
  else if st.showHelp then some { st with showHelp := false }
  else none

/-- The filter-popup block (watch.ts:1292-1321).  An out-of-range popup index
on space would throw in JS; it is unreachable (the index is always clamped to
the option range) and modelled as identity. -/
def filterPopupStep (st : WState) (key : String) : WState :=
  if key = "\x1b[A" || key = "k" then
    { st with filterPopupIndex := st.filterPopupIndex - 1 }
  else if key = "\x1b[B" || key = "j" then
    { st with filterPopupIndex := min (FILTER_KEYS.length - 1) (st.filterPopupIndex + 1) }
  else if key = " " then
    match FILTER_KEYS[st.filterPopupIndex]? with
    | some opt =>
      if setHas st.filterPopupSelected opt then
        { st with filterPopupSelected := setDelete st.filterPopupSelected opt }
      else
        { st with filterPopupSelected := setAdd st.filterPopupSelected opt }
    | none => st
  else if key = "\r" || key = "\n" then
    { st with
      notifyFilter :=
        if st.filterPopupSelected.length = 0 ∨
            st.filterPopupSelected.length = FILTER_KEYS.length then none
        else some st.filterPopupSelected,
      showFilterPopup := false }
  else if key = "q" then { st with showFilterPopup := false }
  else st

/-- The template-editor block (watch.ts:1324-1383).  `charCodeAt(0)` of the
chunk is `none` (`NaN`) on an empty chunk, failing the printable range
check. -/
def templateEditorStep (st : WState) (key : String) : WState :=
  if key = "\t" then
    if st.templateEditorFieldTitle then
      { st with
        titleTemplate := if st.templateEditorValue = "" then none
          else some st.templateEditorValue,
        templateEditorFieldTitle := false,
        templateEditorValue := orDefault st.messageTemplate DEFAULT_MESSAGE_TEMPLATE,
        templateEditorCursor := jsLen (orDefault st.messageTemplate DEFAULT_MESSAGE_TEMPLATE) }
    else
      { st with
        messageTemplate := if st.templateEditorValue = "" then none
          else some st.templateEditorValue,
        templateEditorFieldTitle := true,
        templateEditorValue := orDefault st.titleTemplate DEFAULT_TITLE_TEMPLATE,
        templateEditorCursor := jsLen (orDefault st.titleTemplate DEFAULT_TITLE_TEMPLATE) }
  else if key = "\r" || key = "\n" then
    if st.templateEditorFieldTitle then
      { st with
        titleTemplate := if st.templateEditorValue = "" then none
          else some st.templateEditorValue,
        showTemplateEditor := false }
    else
      { st with
        messageTemplate := if st.templateEditorValue = "" then none
          else some st.templateEditorValue,
        showTemplateEditor := false }
  else if key = "\x12" then
    { st with
      titleTemplate := none, messageTemplate := none,
      templateEditorValue := if st.templateEditorFieldTitle then DEFAULT_TITLE_TEMPLATE
        else DEFAULT_MESSAGE_TEMPLATE,
      templateEditorCursor := jsLen (if st.templateEditorFieldTitle then DEFAULT_TITLE_TEMPLATE
        else DEFAULT_MESSAGE_TEMPLATE) }
  else if key = "\x7f" || key = "\x08" then
    if 0 < st.templateEditorCursor then
      { st with
        templateEditorValue :=
          jsSlice st.templateEditorValue 0 (st.templateEditorCursor - 1)
            ++ jsSliceFrom st.templateEditorValue st.templateEditorCursor,
        templateEditorCursor := st.templateEditorCursor - 1 }
    else st
  else if key = "\x1b[D" then
    if 0 < st.templateEditorCursor then
      { st with templateEditorCursor := st.templateEditorCursor - 1 }
    else st
  else if key = "\x1b[D" || key = "\x1b[C" then
    if key = "\x1b[C" && decide (st.templateEditorCursor < jsLen st.templateEditorValue) then
      { st with templateEditorCursor := st.templateEditorCursor + 1 }
    else st
  else if key = "q" then { st with showTemplateEditor := false }
  else if (match key.data.head? with
           | some ch => decide (32 ≤ ch.toNat) && decide (ch.toNat < 127)
           | none => false) then
    { st with
      templateEditorValue :=
        jsSlice st.templateEditorValue 0 st.templateEditorCursor ++ key
          ++ jsSliceFrom st.templateEditorValue st.templateEditorCursor,
      templateEditorCursor := st.templateEditorCursor + 1 }
  else st

/-- The detailed-help block (watch.ts:1386-1399). -/
def detailedHelpStep (st : WState) (key : String) : WState :=
  if key = "q" then
    { st with showDetailedHelp := false, detailedHelpScrollOffset := 0 }
  else if key = "\x1b[A" || key = "k" then
    { st with detailedHelpScrollOffset := st.detailedHelpScrollOffset - 1 }
  else if key = "\x1b[B" || key = "j" then
    { st with detailedHelpScrollOffset := st.detailedHelpScrollOffset + 1 }
  else st

/-- The help block (watch.ts:1402-1412): `d` swaps to detailed help, any
other key just closes. -/
def helpStep (st : WState) (key : String) : WState :=
  if key = "d" then
    { st with showHelp := false, showDetailedHelp := true, detailedHelpScrollOffset := 0 }
  else { st with showHelp := false }

/-- The hook-detail block (watch.ts:1415-1427). -/
def hookDetailStep (st : WState) (key : String) : WState :=
  if key = "q" then { st with showHookDetail := false }
  else if key = "\x1b[A" || key = "k" then
    { st with hookScrollOffset := st.hookScrollOffset - 1 }
  else if key = "\x1b[B" || key = "j" then
    { st with hookScrollOffset := st.hookScrollOffset + 1 }
  else st

/-- The normal-navigation tail of the handler (watch.ts:1437-1535), reached
only with every modal closed.  `q`/Ctrl-C run `cleanup()` (process exit) and
the attach/kill/mark-done branches await collaborators; none of them touches
this slice, so those branches are the identity here.  `Math.max(0, n - 1)` is
the truncated `Nat` subtraction. -/
def normalStep (st : WState) (key : String) : WState :=
  if key = "\x1b[A" || key = "k" then
    if st.focusPanel = FocusPanel.hooks then
      { st with selectedHookIndex := st.selectedHookIndex - 1 }
    else { st with selectedIndex := st.selectedIndex - 1 }
  else if key = "\x1b[B" || key = "j" then
    if st.focusPanel = FocusPanel.hooks then
      { st with selectedHookIndex := min (st.recentHooksCount - 1) (st.selectedHookIndex + 1) }
    else { st with selectedIndex := min (st.visibleSessionsCount - 1) (st.selectedIndex + 1) }
  else if key = "q" || key.data.head?.map Char.toNat = some 3 then st
  else if key = "?" then { st with showHelp := !st.showHelp }
  else if key = "l" then { st with showLastLine := !st.showLastLine }
  else if key = "s" then { st with showStats := !st.showStats }
  else if key = "h" then
    { st with
      showHooks := !st.showHooks,
      focusPanel := if (!st.showHooks) = false then FocusPanel.sessions else st.focusPanel }
  else if key = "f" then { st with agentsOnly := !st.agentsOnly }
  else if key = "e" then { st with expandAll := !st.expandAll }
  else if key = "r" then st
  else if key = "\r" || key = "\n" || key = "a" then
    if st.focusPanel = FocusPanel.hooks ∧ 0 < st.recentHooksCount then
      { st with showHookDetail := true, hookScrollOffset := 0 }
    else st
  else if key = "x" ∧ st.focusPanel = FocusPanel.sessions ∧ 0 < st.visibleSessionsCount then st
  else if key = "D" ∧ st.focusPanel = FocusPanel.sessions ∧ 0 < st.visibleSessionsCount then st
  else if key = "S" then
    { st with
      sortBy := [none, some SortMode.name, some SortMode.created,
          some SortMode.activity].getD
        (([none, some SortMode.name, some SortMode.created,
            some SortMode.activity].indexOf st.sortBy + 1) % 4) none }
  else if key = "R" then
    { st with
      intervalMs := REFRESH_PRESETS.getD
        (match REFRESH_PRESETS.indexOf? st.intervalMs with
         | some i => (i + 1) % 4
         | none => 0) 1000 }
  else if key = "N" then { st with notifyDesktop := !st.notifyDesktop }
  else if key = "F" ∧ st.notifyDesktop then
    { st with
      showFilterPopup := true, filterPopupIndex := 0,
      filterPopupSelected := st.notifyFilter.getD [] }
  else if key = "T" ∧ st.notifyDesktop then
    { st with
      showTemplateEditor := true, templateEditorFieldTitle := true,
      templateEditorValue := orDefault st.titleTemplate DEFAULT_TITLE_TEMPLATE,
      templateEditorCursor := jsLen (orDefault st.titleTemplate DEFAULT_TITLE_TEMPLATE) }
  else st

/-- The handler after the escape block: the modal guards in source order
(filter popup, template editor, detailed help, help, hook detail,
watch.ts:1292/1324/1386/1402/1415), then the Tab focus toggle
(watch.ts:1430-1434), then normal navigation. -/
def dispatch (st : WState) (key : String) : WState :=
  if st.showFilterPopup then filterPopupStep st key
  else if st.showTemplateEditor then templateEditorStep st key
  else if st.showDetailedHelp then detailedHelpStep st key
  else if st.showHelp then helpStep st key
  else if st.showHookDetail then hookDetailStep st key
  else if key = "\t" ∧ st.showHooks ∧ st.hooksEnabled then
    { st with
      focusPanel := if st.focusPanel = FocusPanel.sessions then FocusPanel.hooks
        else FocusPanel.sessions }
  else normalStep st key

/-- One keystroke of the stdin handler (watch.ts:1256-1536): the escape block
first (returning early when it closed a modal, falling through otherwise),
then the modal guards and normal navigation. -/
def stepKey (st : WState) (key : String) : WState :=
  if isEscape key then
    match escStep st with
    | some st2 => st2
    | none => dispatch st key
  else dispatch st key

/-- The startup state slice of watch.ts:1695-1741 (flag-default run:
hooks on, desktop notifications off, every modal closed). -/
def c8Init : WState :=
  { showHelp := false, showDetailedHelp := false, detailedHelpScrollOffset := 0,
    showFilterPopup := false, filterPopupIndex := 0, filterPopupSelected := [],
    showTemplateEditor := false, templateEditorFieldTitle := true,
    templateEditorValue := "", templateEditorCursor := 0,
    showHooks := true, showHookDetail := false, hookScrollOffset := 0,
    agentsOnly := true, expandAll := true, showLastLine := true, showStats := true,
    sortBy := none, intervalMs := 2000, focusPanel := FocusPanel.sessions,
    selectedIndex := 0, selectedHookIndex := 0, hooksEnabled := true,
    notifyDesktop := false, notifyFilter := none, titleTemplate := none,
    messageTemplate := none, visibleSessionsCount := 0, recentHooksCount := 0 }

/-- A fixture with exactly the help modal open. -/
def c8Help : WState := { c8Init with showHelp := true }

/-! ## C1: cycle safety of the descendant walk

The spec demands that the walk used by `getProcessStatsBatch` and
`detectAgentsBatch` terminate on every table, even a malformed one containing
a parent→child cycle, by tracking visited pids.  The source walk
(`getDescendantsFromTree` above) tracks nothing: on the two-row cyclic table
below it calls itself on 100 ↦ 101 ↦ 100 ↦ … forever.  In the fuel-indexed
embedding this shows up as `none` (budget exhausted) for *every* budget. -/

/-- A malformed two-row process table with a parent→child pid cycle:
row "101 has parent 100" and row "100 has parent 101". -/
def cyclicRows : List PsRow :=
  [⟨101, 100, 1, 1, 10⟩, ⟨100, 101, 2, 2, 20⟩]

theorem cyclicRows_map_100 : buildChildrenMap cyclicRows 100 = [101] := rfl

theorem cyclicRows_map_101 : buildChildrenMap cyclicRows 101 = [100] := rfl

theorem cyclic_walk_aux : ∀ fuel,
    getDescendantsFromTree (buildChildrenMap cyclicRows) fuel 100 = none ∧
    getDescendantsFromTree (buildChildrenMap cyclicRows) fuel 101 = none := by
  intro fuel
  induction fuel with
  | zero => exact ⟨rfl, rfl⟩
  | succ n ih =>
    constructor
    · simp [getDescendantsFromTree, cyclicRows_map_100, descListAux, ih.2]
    · simp [getDescendantsFromTree, cyclicRows_map_101, descListAux, ih.1]

/-- C1: the claim states that the descendant walk terminates on every process
table, including a malformed cyclic one, visiting each pid at most once.  The
code has no visited-pid tracking: on the cyclic table `cyclicRows` the walk
started from pid 100 exhausts every recursion budget (it would recurse
forever), and consequently `getProcessStatsBatch`'s per-pid aggregation never
produces a result either.  This contradicts the claim (and the spec's
explicit cycle-safety requirement), so the code, not the claim, is at
fault. -/
theorem C1_cyclic_table_walk_never_terminates :
    ∀ fuel, getDescendantsFromTree (buildChildrenMap cyclicRows) fuel 100 = none ∧
      aggregateOne cyclicRows fuel 100 = none := by
  intro fuel
  refine ⟨(cyclic_walk_aux fuel).1, ?_⟩
  simp [aggregateOne, (cyclic_walk_aux fuel).1]
  rfl

/-! ## Properties of the descendant walk on well-formed tables

The following section proves that, on a table whose parent→child relation is
well-founded (witnessed by a rank function that strictly decreases from
parent to child), the unguarded recursive walk terminates, its result is
independent of the recursion budget, it enumerates exactly the transitive
descendants, each exactly once, and it is stable (up to permutation) under
permuting every children list.  Everything is stated for an abstract
children map `m`. -/

theorem descListAux_congr {f g : Nat → Option (List Nat)} :
    ∀ {cs : List Nat}, (∀ c ∈ cs, f c = g c) → descListAux f cs = descListAux g cs := by
  intro cs
  induction cs with
  | nil => intro _; rfl
  | cons c cs ih =>
    intro h
    simp only [descListAux, h c (by simp), ih (fun x hx => h x (by simp [hx]))]

theorem descListAux_some {f : Nat → Option (List Nat)} :
    ∀ {cs : List Nat}, (∀ c ∈ cs, (f c).isSome) →
      descListAux f cs = some (cs.flatMap (fun c => (f c).getD [])) := by
  intro cs
  induction cs with
  | nil => intro _; rfl
  | cons c cs ih =>
    intro h
    obtain ⟨lc, hlc⟩ := Option.isSome_iff_exists.mp (h c (by simp))
    rw [List.flatMap_cons, descListAux, hlc, ih (fun x hx => h x (by simp [hx]))]
    simp [hlc]

theorem descListAux_sub {f : Nat → Option (List Nat)} :
    ∀ {cs : List Nat} {ds : List Nat}, descListAux f cs = some ds →
      ∀ c ∈ cs, ∃ lc, f c = some lc := by
  intro cs
  induction cs with
  | nil => intro ds _ c hc; cases hc
  | cons c cs ih =>
    intro ds hds x hx
    simp only [descListAux] at hds
    rcases hfc : f c with _ | lc <;> rw [hfc] at hds
    · cases hds
    rcases hrest : descListAux f cs with _ | ds2 <;> rw [hrest] at hds
    · cases hds
    rcases List.mem_cons.mp hx with h | h
    · exact ⟨lc, h ▸ hfc⟩
    · exact ih hrest x h

theorem descListAux_eq_flatMap {f : Nat → Option (List Nat)} {cs ds : List Nat}
    (h : descListAux f cs = some ds) :
    ds = cs.flatMap (fun c => (f c).getD []) := by
  have hs : ∀ c ∈ cs, (f c).isSome := by
    intro c hc
    obtain ⟨lc, hlc⟩ := descListAux_sub h c hc
    simp [hlc]
  rw [descListAux_some hs] at h
  exact (Option.some_inj.mp h).symm

section ForestWalk

variable {m : Nat → List Nat} {rank : Nat → Nat}

theorem descListAux_canonical :
    ∀ cs : List Nat,
      (∀ c ∈ cs, ∃ lc, ∀ fuel, rank c < fuel → getDescendantsFromTree m fuel c = some lc) →
      ∃ ds, ∀ fuel, (∀ c ∈ cs, rank c < fuel) →
        descListAux (getDescendantsFromTree m fuel) cs = some ds := by
  intro cs
  induction cs with
  | nil => exact fun _ => ⟨[], fun _ _ => rfl⟩
  | cons c cs ihcs =>
    intro hch
    obtain ⟨lc, hlc⟩ := hch c (by simp)
    obtain ⟨ds, hds⟩ := ihcs (fun x hx => hch x (by simp [hx]))
    refine ⟨lc ++ ds, fun fuel hf => ?_⟩
    simp only [descListAux, hlc fuel (hf c (by simp)), hds fuel (fun x hx => hf x (by simp [hx]))]

/-- On a ranked map, the walk succeeds and its result does not depend on the
budget, as long as the budget exceeds the rank of the root. -/
theorem walk_total (hedge : ∀ p c, c ∈ m p → rank c < rank p) :
    ∀ n p, rank p < n → ∃ l, ∀ fuel, rank p < fuel → getDescendantsFromTree m fuel p = some l := by
  intro n
  induction n with
  | zero => intro p hp; omega
  | succ n ih =>
    intro p hp
    have hch : ∀ c ∈ m p, ∃ lc, ∀ fuel, rank c < fuel → getDescendantsFromTree m fuel c = some lc := by
      intro c hc
      exact ih c (by have := hedge p c hc; omega)
    obtain ⟨ds, hds⟩ := descListAux_canonical (m p) hch
    refine ⟨m p ++ ds, fun fuel hf => ?_⟩
    obtain ⟨k, rfl⟩ : ∃ k, fuel = k + 1 := ⟨fuel - 1, by omega⟩
    have hk : ∀ c ∈ m p, rank c < k := by
      intro c hc
      have := hedge p c hc
      omega
    simp only [getDescendantsFromTree, hds k hk]
    rfl

/-- Any successful walk enumerates exactly the transitive descendants. -/
theorem walk_mem (hedge : ∀ p c, c ∈ m p → rank c < rank p) :
    ∀ n p, rank p < n → ∀ fuel l, getDescendantsFromTree m fuel p = some l →
      ∀ d, d ∈ l ↔ Relation.TransGen (childRel m) p d := by
  intro n
  induction n with
  | zero => intro p hp; omega
  | succ n ih =>
    intro p hp fuel l hl d
    obtain ⟨k, rfl⟩ : ∃ k, fuel = k + 1 := by
      cases fuel with
      | zero => exact Option.noConfusion ((rfl :
          (none : Option (List Nat)) = getDescendantsFromTree m 0 p).trans hl)
      | succ k => exact ⟨k, rfl⟩
    simp only [getDescendantsFromTree] at hl
    rcases hds : descListAux (getDescendantsFromTree m k) (m p) with _ | ds <;> rw [hds] at hl
    · cases hl
    have hl2 : m p ++ ds = l := by
      simpa using hl
    subst hl2
    have hflat := descListAux_eq_flatMap hds
    constructor
    · intro hmem
      rcases List.mem_append.mp hmem with h | h
      · exact Relation.TransGen.single h
      · rw [hflat] at h
        obtain ⟨c, hc, hdc⟩ := List.mem_flatMap.mp h
        obtain ⟨lc, hlc⟩ := descListAux_sub hds c hc
        rw [hlc] at hdc
        simp only [Option.getD_some] at hdc
        have htc : Relation.TransGen (childRel m) c d :=
          ((ih c (by have := hedge p c hc; omega)) k lc hlc d).mp hdc
        exact Relation.TransGen.head hc htc
    · intro htg
      obtain ⟨c, hc, hrest⟩ := Relation.TransGen.head'_iff.mp htg
      rcases Relation.reflTransGen_iff_eq_or_transGen.mp hrest with h | h
      · exact List.mem_append.mpr (Or.inl (h ▸ hc))
      · obtain ⟨lc, hlc⟩ := descListAux_sub hds c hc
        have hdc : d ∈ lc := ((ih c (by have := hedge p c hc; omega)) k lc hlc d).mpr h
        refine List.mem_append.mpr (Or.inr ?_)
        rw [hflat]
        exact List.mem_flatMap.mpr ⟨c, hc, by simp [hlc, hdc]⟩

/-- Reachability strictly decreases the rank. -/
theorem reach_rank (hedge : ∀ p c, c ∈ m p → rank c < rank p) {a b : Nat}
    (h : Relation.TransGen (childRel m) a b) : rank b < rank a := by
  induction h with
  | single h => exact hedge _ _ h
  | tail _ h ih => exact lt_trans (hedge _ _ h) ih

/-- In a unique-parent map, two nodes that both reach a common node are
comparable: one reaches the other (or they coincide). -/
theorem reach_comparable (hup : ∀ d p q, d ∈ m p → d ∈ m q → p = q) {c1 : Nat} :
    ∀ {x : Nat}, Relation.ReflTransGen (childRel m) c1 x →
      ∀ {c2 : Nat}, Relation.ReflTransGen (childRel m) c2 x →
        Relation.ReflTransGen (childRel m) c1 c2 ∨ Relation.ReflTransGen (childRel m) c2 c1 := by
  intro x h1
  induction h1 with
  | refl => intro c2 h2; exact Or.inr h2
  | tail hsteps hstep ih =>
    intro c2 h2
    rcases Relation.ReflTransGen.cases_tail h2 with h | ⟨y2, hy2, hstep2⟩
    · subst h
      exact Or.inl (hsteps.tail hstep)
    · have hyy : _ = y2 := hup _ _ _ hstep hstep2
      subst hyy
      exact ih hy2

/-- A node cannot strictly reach its own parent (ranked unique-parent map):
if `c ∈ m p` then `c` does not reach `p`. -/
theorem not_reach_parent (hedge : ∀ p c, c ∈ m p → rank c < rank p)
    {p c : Nat} (hc : c ∈ m p)
    (h : Relation.ReflTransGen (childRel m) c p) : False := by
  rcases Relation.reflTransGen_iff_eq_or_transGen.mp h with heq | htg
  · have := hedge p c hc
    rw [heq] at this
    omega
  · have := reach_rank hedge htg
    have := hedge p c hc
    omega

/-- Subtrees of two distinct children of the same node are disjoint
(unique-parent + ranked map). -/
theorem sibling_subtrees_disjoint (hedge : ∀ p c, c ∈ m p → rank c < rank p)
    (hup : ∀ d p q, d ∈ m p → d ∈ m q → p = q)
    {p c1 c2 d : Nat} (hc1 : c1 ∈ m p) (hc2 : c2 ∈ m p) (hne : c1 ≠ c2)
    (h1 : Relation.TransGen (childRel m) c1 d) :
    ¬ Relation.TransGen (childRel m) c2 d := by
  intro h2
  obtain ⟨x1, hx1, hstep1⟩ := Relation.TransGen.tail'_iff.mp h1
  obtain ⟨x2, hx2, hstep2⟩ := Relation.TransGen.tail'_iff.mp h2
  have hx12 : x1 = x2 := hup d x1 x2 hstep1 hstep2
  subst hx12
  rcases reach_comparable hup hx1 hx2 with h | h
  · -- c1 reaches c2; decompose the last step of that path: c2's unique
    -- parent is p, so c1 would reach p, contradicting the rank order.
    rcases Relation.reflTransGen_iff_eq_or_transGen.mp h with heq | htg
    · exact hne heq.symm
    · obtain ⟨y, hy, hystep⟩ := Relation.TransGen.tail'_iff.mp htg
      have hyp : y = p := hup c2 y p hystep hc2
      subst hyp
      exact not_reach_parent hedge hc1 hy
  · rcases Relation.reflTransGen_iff_eq_or_transGen.mp h with heq | htg
    · exact hne heq
    · obtain ⟨y, hy, hystep⟩ := Relation.TransGen.tail'_iff.mp htg
      have hyp : y = p := hup c1 y p hystep hc1
      subst hyp
      exact not_reach_parent hedge hc2 hy

/-- A child of `p` does not occur in the subtree of any child of `p`. -/
theorem child_not_in_subtree (hedge : ∀ p c, c ∈ m p → rank c < rank p)
    (hup : ∀ d p q, d ∈ m p → d ∈ m q → p = q)
    {p c d : Nat} (hd : d ∈ m p) (hc : c ∈ m p)
    (h : Relation.TransGen (childRel m) c d) : False := by
  obtain ⟨x, hx, hstep⟩ := Relation.TransGen.tail'_iff.mp h
  have hxp : x = p := hup d x p hstep hd
  subst hxp
  exact not_reach_parent hedge hc hx

/-- On a ranked, unique-parent map with duplicate-free children lists, any
successful walk visits each pid at most once. -/
theorem walk_nodup (hedge : ∀ p c, c ∈ m p → rank c < rank p)
    (hup : ∀ d p q, d ∈ m p → d ∈ m q → p = q)
    (hmn : ∀ p, (m p).Nodup) :
    ∀ n p, rank p < n → ∀ fuel l, getDescendantsFromTree m fuel p = some l → l.Nodup := by
  intro n
  induction n with
  | zero => intro p hp; omega
  | succ n ih =>
    intro p hp fuel l hl
    obtain ⟨k, rfl⟩ : ∃ k, fuel = k + 1 := by
      cases fuel with
      | zero => exact Option.noConfusion ((rfl :
          (none : Option (List Nat)) = getDescendantsFromTree m 0 p).trans hl)
      | succ k => exact ⟨k, rfl⟩
    simp only [getDescendantsFromTree] at hl
    rcases hds : descListAux (getDescendantsFromTree m k) (m p) with _ | ds <;> rw [hds] at hl
    · cases hl
    have hl2 : m p ++ ds = l := by
      simpa using hl
    subst hl2
    -- the concatenated child subtrees are Nodup and pairwise disjoint
    have hmemc : ∀ c ∈ m p, ∀ lc, getDescendantsFromTree m k c = some lc →
        ∀ d, d ∈ lc ↔ Relation.TransGen (childRel m) c d := by
      intro c hc lc hlc d
      exact walk_mem hedge n c (by have := hedge p c hc; omega) k lc hlc d
    have hndds : ∀ (cs : List Nat), cs.Nodup → (∀ c ∈ cs, c ∈ m p) →
        ∀ ds2, descListAux (getDescendantsFromTree m k) cs = some ds2 →
          ds2.Nodup ∧ ∀ d ∈ ds2, ∃ c ∈ cs, Relation.TransGen (childRel m) c d := by
      intro cs
      induction cs with
      | nil =>
        intro _ _ ds2 hds2
        simp only [descListAux, Option.some_inj] at hds2
        subst hds2
        exact ⟨List.nodup_nil, by simp⟩
      | cons c cs ihcs =>
        intro hnd hsub ds2 hds2
        simp only [descListAux] at hds2
        rcases hfc : getDescendantsFromTree m k c with _ | lc <;> rw [hfc] at hds2
        · cases hds2
        rcases hrest : descListAux (getDescendantsFromTree m k) cs with _ | ds3 <;>
          rw [hrest] at hds2
        · cases hds2
        simp only [Option.some_inj] at hds2
        subst hds2
        have hcin : c ∈ m p := hsub c (by simp)
        have hlcnd : lc.Nodup := ih c (by have := hedge p c hcin; omega) k lc hfc
        obtain ⟨hds3nd, hds3mem⟩ :=
          ihcs (List.Nodup.of_cons hnd) (fun x hx => hsub x (by simp [hx])) ds3 hrest
        refine ⟨List.Nodup.append hlcnd hds3nd ?_, ?_⟩
        · intro d hdlc hdds3
          obtain ⟨c2, hc2, htg2⟩ := hds3mem d hdds3
          have htg1 := (hmemc c hcin lc hfc d).mp hdlc
          have hcne : c ≠ c2 := by
            intro heq
            subst heq
            exact (List.nodup_cons.mp hnd).1 hc2
          exact sibling_subtrees_disjoint hedge hup hcin (hsub c2 (by simp [hc2])) hcne htg1 htg2
        · intro d hd
          rcases List.mem_append.mp hd with h | h
          · exact ⟨c, by simp, (hmemc c hcin lc hfc d).mp h⟩
          · obtain ⟨c2, hc2, htg⟩ := hds3mem d h
            exact ⟨c2, by simp [hc2], htg⟩
    obtain ⟨hdsnd, hdsmem⟩ := hndds (m p) (hmn p) (fun _ h => h) ds hds
    refine List.Nodup.append (hmn p) hdsnd ?_
    intro d hdm hdds
    obtain ⟨c, hc, htg⟩ := hdsmem d hdds
    exact child_not_in_subtree hedge hup hdm hc htg

/-- On a ranked map, the walk's result is stable (up to permutation) under
permuting every children list. -/
theorem walk_perm {m2 : Nat → List Nat}
    (hedge : ∀ p c, c ∈ m p → rank c < rank p)
    (hperm : ∀ q, (m2 q).Perm (m q)) :
    ∀ n p, rank p < n → ∀ fuel l, getDescendantsFromTree m fuel p = some l →
      ∃ l2, getDescendantsFromTree m2 fuel p = some l2 ∧ l2.Perm l := by
  intro n
  induction n with
  | zero => intro p hp; omega
  | succ n ih =>
    intro p hp fuel l hl
    obtain ⟨k, rfl⟩ : ∃ k, fuel = k + 1 := by
      cases fuel with
      | zero => exact Option.noConfusion ((rfl :
          (none : Option (List Nat)) = getDescendantsFromTree m 0 p).trans hl)
      | succ k => exact ⟨k, rfl⟩
    simp only [getDescendantsFromTree] at hl ⊢
    rcases hds : descListAux (getDescendantsFromTree m k) (m p) with _ | ds <;> rw [hds] at hl
    · cases hl
    have hl2 : m p ++ ds = l := by
      simpa using hl
    subst hl2
    have hih : ∀ c ∈ m p, ∃ lc l2c, getDescendantsFromTree m k c = some lc ∧
        getDescendantsFromTree m2 k c = some l2c ∧ l2c.Perm lc := by
      intro c hc
      obtain ⟨lc, hlc⟩ := descListAux_sub hds c hc
      obtain ⟨l2c, hl2c, hpc⟩ := ih c (by have := hedge p c hc; omega) k lc hlc
      exact ⟨lc, l2c, hlc, hl2c, hpc⟩
    have hsome2 : ∀ c ∈ m2 p, (getDescendantsFromTree m2 k c).isSome := by
      intro c hc
      obtain ⟨_, l2c, _, hl2c, _⟩ := hih c ((hperm p).mem_iff.mp hc)
      simp [hl2c]
    rw [descListAux_some hsome2]
    refine ⟨m2 p ++ (m2 p).flatMap (fun c => (getDescendantsFromTree m2 k c).getD []), rfl, ?_⟩
    have hflat := descListAux_eq_flatMap hds
    rw [hflat]
    refine List.Perm.append (hperm p) (((hperm p).flatMap_right _).trans ?_)
    refine List.Perm.flatMap_left _ ?_
    intro c hc
    obtain ⟨lc, l2c, hlc, hl2c, hpc⟩ := hih c hc
    rw [hlc, hl2c]
    simpa using hpc

end ForestWalk

/-! ## Characterizations of the two maps built from the `ps` table -/

theorem buildChildrenMap_aux (rows : List PsRow) :
    ∀ (m0 : Nat → List Nat) (q : Nat),
      (rows.foldl (fun m r => fun q2 => if q2 = r.ppid then m r.ppid ++ [r.pid] else m q2) m0) q
        = m0 q ++ (rows.filter (fun r => decide (r.ppid = q))).map PsRow.pid := by
  induction rows with
  | nil => intro m0 q; simp
  | cons r rows ih =>
    intro m0 q
    rw [List.foldl_cons, ih]
    by_cases h : q = r.ppid
    · subst h
      simp [List.filter_cons]
    · have h2 : ¬ (r.ppid = q) := fun hh => h hh.symm
      simp [List.filter_cons, h, h2]

theorem buildChildrenMap_eq (rows : List PsRow) (q : Nat) :
    buildChildrenMap rows q = (rows.filter (fun r => decide (r.ppid = q))).map PsRow.pid := by
  simpa using buildChildrenMap_aux rows (fun _ => []) q

theorem mem_buildChildrenMap {rows : List PsRow} {p c : Nat} :
    c ∈ buildChildrenMap rows p ↔ ∃ r ∈ rows, r.ppid = p ∧ r.pid = c := by
  rw [buildChildrenMap_eq]
  simp only [List.mem_map, List.mem_filter, decide_eq_true_eq]
  constructor
  · rintro ⟨r, ⟨hr, hppid⟩, hpid⟩
    exact ⟨r, hr, hppid, hpid⟩
  · rintro ⟨r, hr, hppid, hpid⟩
    exact ⟨r, ⟨hr, hppid⟩, hpid⟩

theorem buildChildrenMap_nodup {rows : List PsRow}
    (hnd : (rows.map PsRow.pid).Nodup) (p : Nat) : (buildChildrenMap rows p).Nodup := by
  rw [buildChildrenMap_eq]
  have hsub : List.Sublist ((rows.filter (fun r => decide (r.ppid = p))).map PsRow.pid)
      (rows.map PsRow.pid) :=
    List.Sublist.map _ (List.filter_sublist rows)
  exact hnd.sublist hsub

theorem buildChildrenMap_unique_parent {rows : List PsRow}
    (hnd : (rows.map PsRow.pid).Nodup) :
    ∀ d p q, d ∈ buildChildrenMap rows p → d ∈ buildChildrenMap rows q → p = q := by
  intro d p q hp hq
  obtain ⟨r1, hr1, hppid1, hpid1⟩ := mem_buildChildrenMap.mp hp
  obtain ⟨r2, hr2, hppid2, hpid2⟩ := mem_buildChildrenMap.mp hq
  have : r1 = r2 :=
    List.inj_on_of_nodup_map hnd hr1 hr2 (by rw [hpid1, hpid2])
  rw [← hppid1, ← hppid2, this]

theorem buildChildrenMap_edge_rank {rows : List PsRow} {rank : Nat → Nat}
    (hrk : ∀ r ∈ rows, rank r.pid < rank r.ppid) :
    ∀ p c, c ∈ buildChildrenMap rows p → rank c < rank p := by
  intro p c hc
  obtain ⟨r, hr, hppid, hpid⟩ := mem_buildChildrenMap.mp hc
  have := hrk r hr
  rw [hppid, hpid] at this
  exact this

theorem buildChildrenMap_perm {rows rows2 : List PsRow} (h : rows2.Perm rows) (q : Nat) :
    (buildChildrenMap rows2 q).Perm (buildChildrenMap rows q) := by
  rw [buildChildrenMap_eq, buildChildrenMap_eq]
  exact (h.filter _).map _

theorem buildStatsMap_aux_none (rows : List PsRow) :
    ∀ (m0 : Nat → Option (Rat × Rat × Nat)) (q : Nat), (∀ r ∈ rows, r.pid ≠ q) →
      (rows.foldl (fun m r => fun q2 => if q2 = r.pid then some (r.cpu, r.mem, r.rss) else m q2) m0) q
        = m0 q := by
  induction rows with
  | nil => intro m0 q _; rfl
  | cons r rows ih =>
    intro m0 q hq
    rw [List.foldl_cons, ih _ q (fun x hx => hq x (by simp [hx]))]
    have : ¬ (q = r.pid) := fun hh => hq r (by simp) hh.symm
    simp [this]

theorem buildStatsMap_eq_none {rows : List PsRow} {q : Nat} (h : ∀ r ∈ rows, r.pid ≠ q) :
    buildStatsMap rows q = none :=
  buildStatsMap_aux_none rows _ q h

theorem buildStatsMap_aux_some (rows : List PsRow) :
    ∀ (m0 : Nat → Option (Rat × Rat × Nat)) (r : PsRow), (rows.map PsRow.pid).Nodup → r ∈ rows →
      (rows.foldl (fun m r2 => fun q2 => if q2 = r2.pid then some (r2.cpu, r2.mem, r2.rss) else m q2) m0) r.pid
        = some (r.cpu, r.mem, r.rss) := by
  induction rows with
  | nil => intro _ r _ hr; cases hr
  | cons r0 rows ih =>
    intro m0 r hnd hr
    have hmc : (r0 :: rows).map PsRow.pid = r0.pid :: rows.map PsRow.pid := rfl
    rw [hmc] at hnd
    obtain ⟨hnotin, hndrest⟩ := List.nodup_cons.mp hnd
    rw [List.foldl_cons]
    rcases List.mem_cons.mp hr with h | h
    · subst h
      have hrest : ∀ x ∈ rows, x.pid ≠ r.pid := by
        intro x hx heq
        exact hnotin (heq ▸ List.mem_map_of_mem PsRow.pid hx)
      rw [buildStatsMap_aux_none rows _ r.pid hrest]
      simp
    · exact ih _ r hndrest h

theorem buildStatsMap_eq_some {rows : List PsRow} {r : PsRow}
    (hnd : (rows.map PsRow.pid).Nodup) (hr : r ∈ rows) :
    buildStatsMap rows r.pid = some (r.cpu, r.mem, r.rss) :=
  buildStatsMap_aux_some rows _ r hnd hr

theorem buildStatsMap_perm {rows rows2 : List PsRow}
    (hnd : (rows.map PsRow.pid).Nodup) (h : rows2.Perm rows) (q : Nat) :
    buildStatsMap rows2 q = buildStatsMap rows q := by
  have hnd2 : (rows2.map PsRow.pid).Nodup := ((h.map PsRow.pid).nodup_iff).mpr hnd
  by_cases hex : ∃ r ∈ rows, r.pid = q
  · obtain ⟨r, hr, hpid⟩ := hex
    subst hpid
    rw [buildStatsMap_eq_some hnd hr, buildStatsMap_eq_some hnd2 (h.mem_iff.mpr hr)]
  · push_neg at hex
    rw [buildStatsMap_eq_none hex, buildStatsMap_eq_none (fun r hr => hex r (h.mem_iff.mp hr))]

/-! ## Bounded reachability: a decidable transitive-descendant predicate -/

theorem reachB_transGen {m : Nat → List Nat} :
    ∀ {fuel a d}, reachB m fuel a d = true → Relation.TransGen (childRel m) a d := by
  intro fuel
  induction fuel with
  | zero =>
    intro a d h
    simp [reachB] at h
  | succ k ih =>
    intro a d h
    simp only [reachB, List.any_eq_true] at h
    obtain ⟨c, hc, hcd⟩ := h
    rcases Bool.or_eq_true_iff.mp hcd with h1 | h2
    · have hcdeq : c = d := by simpa using h1
      exact hcdeq ▸ Relation.TransGen.single hc
    · exact Relation.TransGen.head hc (ih h2)

theorem transGen_reachB {m : Nat → List Nat} {rank : Nat → Nat}
    (hedge : ∀ p c, c ∈ m p → rank c < rank p) {a d : Nat}
    (h : Relation.TransGen (childRel m) a d) :
    ∀ fuel, rank a < fuel → reachB m fuel a d = true := by
  induction h using Relation.TransGen.head_induction_on with
  | base hstep =>
    intro fuel hf
    obtain ⟨k, rfl⟩ : ∃ k, fuel = k + 1 := ⟨fuel - 1, by omega⟩
    simp only [reachB, List.any_eq_true]
    exact ⟨d, hstep, by simp⟩
  | ih hstep htail ihc =>
    intro fuel hf
    obtain ⟨k, rfl⟩ : ∃ k, fuel = k + 1 := ⟨fuel - 1, by omega⟩
    simp only [reachB, List.any_eq_true]
    refine ⟨_, hstep, ?_⟩
    have hk := ihc k (by have := hedge _ _ hstep; omega)
    simp [hk]

theorem reachB_iff_transGen {m : Nat → List Nat} {rank : Nat → Nat}
    (hedge : ∀ p c, c ∈ m p → rank c < rank p) {a : Nat} {fuel : Nat} (hf : rank a < fuel) :
    ∀ d, reachB m fuel a d = true ↔ Relation.TransGen (childRel m) a d :=
  fun _ => ⟨reachB_transGen, fun h => transGen_reachB hedge h fuel hf⟩

/-! ## Summation lemmas for the aggregation -/

theorem foldl_addStats (sm : Nat → Option (Rat × Rat × Nat)) :
    ∀ (l : List Nat) (a b : Rat) (c : Nat), (∀ d ∈ l, (sm d).isSome) →
      l.foldl (addStats sm) (a, b, c)
        = (a + (l.map (fun d => ((sm d).getD (0, 0, 0)).1)).sum,
           b + (l.map (fun d => ((sm d).getD (0, 0, 0)).2.1)).sum,
           c + (l.map (fun d => ((sm d).getD (0, 0, 0)).2.2)).sum) := by
  intro l
  induction l with
  | nil => intro a b c _; simp
  | cons d l ih =>
    intro a b c h
    obtain ⟨s, hs⟩ := Option.isSome_iff_exists.mp (h d (by simp))
    rw [List.foldl_cons]
    have hstep : addStats sm (a, b, c) d = (a + s.1, b + s.2.1, c + s.2.2) := by
      simp [addStats, hs]
    rw [hstep, ih _ _ _ (fun x hx => h x (by simp [hx]))]
    simp [hs, add_assoc]

theorem filter_or_sum {α M : Type} [AddCommMonoid M] (f : α → M) (a b : α → Bool) :
    ∀ l : List α, (∀ x ∈ l, ¬(a x = true ∧ b x = true)) →
      ((l.filter (fun x => a x || b x)).map f).sum
        = ((l.filter a).map f).sum + ((l.filter b).map f).sum := by
  intro l
  induction l with
  | nil => intro _; simp
  | cons x l ih =>
    intro h
    have hrest := ih (fun y hy => h y (by simp [hy]))
    by_cases hax : a x = true
    · have hbx : b x = false := by
        by_contra hb
        simp only [Bool.not_eq_false] at hb
        exact (h x (by simp)) ⟨hax, hb⟩
      simp [List.filter_cons, hax, hbx, hrest, add_assoc]
    · have hax2 : a x = false := by simpa using hax
      by_cases hbx : b x = true
      · simp [List.filter_cons, hax2, hbx, hrest, add_assoc, add_left_comm]
      · have hbx2 : b x = false := by simpa using hbx
        simp [List.filter_cons, hax2, hbx2, hrest]

theorem filter_unique_row {rows : List PsRow} {r0 : PsRow}
    (hnd : (rows.map PsRow.pid).Nodup) (hr0 : r0 ∈ rows) :
    rows.filter (fun r => decide (r.pid = r0.pid)) = [r0] := by
  induction rows with
  | nil => cases hr0
  | cons r rows ih =>
    have hmc : (r :: rows).map PsRow.pid = r.pid :: rows.map PsRow.pid := rfl
    rw [hmc] at hnd
    obtain ⟨hnotin, hndrest⟩ := List.nodup_cons.mp hnd
    rcases List.mem_cons.mp hr0 with h | h
    · subst h
      have hnone : rows.filter (fun r2 => decide (r2.pid = r0.pid)) = [] := by
        rw [List.filter_eq_nil_iff]
        intro x hx
        simp only [decide_eq_true_eq]
        intro heq
        exact hnotin (heq ▸ List.mem_map_of_mem PsRow.pid hx)
      rw [List.filter_cons, if_pos (by simp), hnone]
    · have hne : r.pid ≠ r0.pid := by
        intro heq
        exact hnotin (heq ▸ List.mem_map_of_mem PsRow.pid h)
      rw [List.filter_cons, if_neg (by simpa using hne)]
      exact ih hndrest h

theorem sum_over_walk {M : Type} [AddCommMonoid M] {rows : List PsRow} {pred : PsRow → Bool}
    {l : List Nat} (hperm : ((rows.filter pred).map PsRow.pid).Perm l)
    (f : PsRow → M) (g : Nat → M) (hfg : ∀ r ∈ rows, g r.pid = f r) :
    (l.map g).sum = ((rows.filter pred).map f).sum := by
  have h1 := (hperm.map g).sum_eq
  rw [← h1, List.map_map]
  refine congrArg List.sum (List.map_congr_left ?_)
  intro r hr
  exact hfg r (List.mem_of_mem_filter hr)

theorem aggregateOne_eq {rows : List PsRow} {fuel pid : Nat} {own : Rat × Rat × Nat}
    {l : List Nat}
    (h1 : buildStatsMap rows pid = some own)
    (h2 : getDescendantsFromTree (buildChildrenMap rows) fuel pid = some l) :
    aggregateOne rows fuel pid = some
      ⟨pid, (l.foldl (addStats (buildStatsMap rows)) (own.1, own.2.1, own.2.2)).1,
        (l.foldl (addStats (buildStatsMap rows)) (own.1, own.2.1, own.2.2)).2.1,
        (l.foldl (addStats (buildStatsMap rows)) (own.1, own.2.1, own.2.2)).2.2⟩ := by
  simp only [aggregateOne, h1, h2]

/-! ## C2: aggregation equals the sum over the transitive closure -/

/-- C2: on any well-formed process table (duplicate-free pids and a
well-founded parent→child relation, witnessed by a rank function), for any
pid present in the table and any sufficient recursion budget, the per-pid
aggregation of `getProcessStatsBatch` returns exactly the sum of cpu, mem
and rss over the pid's own row and the rows of all its transitive
descendants; the bounded predicate used in the sum is certified to be the
transitive closure of the parent→child relation; the result is unchanged
under any permutation of the table rows; and on the spec's example table
`Aggregate([100])` returns cpu 6.0. -/
theorem C2_aggregate_closure_sum
    (rows : List PsRow) (rank : Nat → Nat)
    (hnd : (rows.map PsRow.pid).Nodup)
    (hrk : ∀ r ∈ rows, rank r.pid < rank r.ppid)
    (r0 : PsRow) (hr0 : r0 ∈ rows)
    (fuel : Nat) (hf : rank r0.pid < fuel) :
    (∃ s : ProcessStats, aggregateOne rows fuel r0.pid = some s ∧
      s.cpu = ((rows.filter (fun r => decide (r.pid = r0.pid) ||
        reachB (buildChildrenMap rows) fuel r0.pid r.pid)).map PsRow.cpu).sum ∧
      s.memory = ((rows.filter (fun r => decide (r.pid = r0.pid) ||
        reachB (buildChildrenMap rows) fuel r0.pid r.pid)).map PsRow.mem).sum ∧
      s.rss = ((rows.filter (fun r => decide (r.pid = r0.pid) ||
        reachB (buildChildrenMap rows) fuel r0.pid r.pid)).map PsRow.rss).sum ∧
      (∀ rows2 : List PsRow, rows2.Perm rows → aggregateOne rows2 fuel r0.pid = some s)) ∧
    (∀ d, reachB (buildChildrenMap rows) fuel r0.pid d = true ↔
      Relation.TransGen (childRel (buildChildrenMap rows)) r0.pid d) ∧
    aggregateOne scenarioRows 2 100 = some ⟨100, 6, 6, 60⟩ := by
  have hedge := @buildChildrenMap_edge_rank rows rank hrk
  have hup := @buildChildrenMap_unique_parent rows hnd
  have hmn := @buildChildrenMap_nodup rows hnd
  -- the walk terminates with a budget-independent result
  obtain ⟨l, hl⟩ := walk_total hedge (rank r0.pid + 1) r0.pid (Nat.lt_succ_self _)
  have hlf := hl fuel hf
  have hmem := walk_mem hedge (rank r0.pid + 1) r0.pid (Nat.lt_succ_self _) fuel l hlf
  have hnodup := walk_nodup hedge hup hmn (rank r0.pid + 1) r0.pid (Nat.lt_succ_self _) fuel l hlf
  have hiff := @reachB_iff_transGen (buildChildrenMap rows) rank hedge r0.pid fuel hf
  -- each walked descendant has a stats row
  have hrowof : ∀ d, Relation.TransGen (childRel (buildChildrenMap rows)) r0.pid d →
      ∃ r ∈ rows, r.pid = d := by
    intro d hd
    obtain ⟨x, _, hstep⟩ := Relation.TransGen.tail'_iff.mp hd
    obtain ⟨r, hr, _, hpid⟩ := mem_buildChildrenMap.mp hstep
    exact ⟨r, hr, hpid⟩
  have hsome : ∀ d ∈ l, (buildStatsMap rows d).isSome := by
    intro d hd
    obtain ⟨r, hr, hpid⟩ := hrowof d ((hmem d).mp hd)
    rw [← hpid, buildStatsMap_eq_some hnd hr]
    rfl
  have hown := buildStatsMap_eq_some hnd hr0
  -- the sum over the walked list equals the sum over the descendant rows
  have hdescperm : (((rows.filter (fun r =>
      reachB (buildChildrenMap rows) fuel r0.pid r.pid)).map PsRow.pid)).Perm l := by
    refine (List.perm_ext_iff_of_nodup ?_ hnodup).mpr ?_
    · exact hnd.sublist (List.Sublist.map _ (List.filter_sublist rows))
    · intro x
      simp only [List.mem_map, List.mem_filter]
      constructor
      · rintro ⟨r, ⟨_, hrb⟩, hpid⟩
        exact (hmem x).mpr (hiff x |>.mp (hpid ▸ hrb))
      · intro hx
        have htg := (hmem x).mp hx
        obtain ⟨r, hr, hpid⟩ := hrowof x htg
        exact ⟨r, ⟨hr, hpid ▸ ((hiff x).mpr htg)⟩, hpid⟩
  -- the aggregation's totals, via the fold lemma
  have hfold := foldl_addStats (buildStatsMap rows) l r0.cpu r0.mem r0.rss hsome
  have hagg := aggregateOne_eq hown hlf
  rw [hfold] at hagg
  -- abbreviations for the three sums over the walked list
  set gc : Nat → Rat := fun d => ((buildStatsMap rows d).getD (0, 0, 0)).1 with hgc
  set gm : Nat → Rat := fun d => ((buildStatsMap rows d).getD (0, 0, 0)).2.1 with hgm
  set gr : Nat → Nat := fun d => ((buildStatsMap rows d).getD (0, 0, 0)).2.2 with hgr
  have hgcrow : ∀ r ∈ rows, gc r.pid = r.cpu := by
    intro r hr
    rw [hgc]
    simp [buildStatsMap_eq_some hnd hr]
  have hgmrow : ∀ r ∈ rows, gm r.pid = r.mem := by
    intro r hr
    rw [hgm]
    simp [buildStatsMap_eq_some hnd hr]
  have hgrrow : ∀ r ∈ rows, gr r.pid = r.rss := by
    intro r hr
    rw [hgr]
    simp [buildStatsMap_eq_some hnd hr]
  -- splitting the claimed filter into the own row and the descendants
  have hdisj : ∀ r ∈ rows, ¬(decide (r.pid = r0.pid) = true ∧
      reachB (buildChildrenMap rows) fuel r0.pid r.pid = true) := by
    rintro r _ ⟨h1, h2⟩
    have heq : r.pid = r0.pid := of_decide_eq_true h1
    have htg := (hiff r.pid).mp h2
    rw [heq] at htg
    have := reach_rank hedge htg
    omega
  have hsplit : ∀ {M : Type} (_ : AddCommMonoid M) (f : PsRow → M),
      ((rows.filter (fun r => decide (r.pid = r0.pid) ||
        reachB (buildChildrenMap rows) fuel r0.pid r.pid)).map f).sum
      = f r0 + ((rows.filter (fun r =>
          reachB (buildChildrenMap rows) fuel r0.pid r.pid)).map f).sum := by
    intro M hM f
    rw [filter_or_sum f _ _ rows hdisj, filter_unique_row hnd hr0]
    simp
  refine ⟨⟨_, hagg, ?_, ?_, ?_, ?_⟩, hiff, ?_⟩
  · rw [hsplit inferInstance PsRow.cpu, sum_over_walk hdescperm PsRow.cpu gc hgcrow]
  · rw [hsplit inferInstance PsRow.mem, sum_over_walk hdescperm PsRow.mem gm hgmrow]
  · rw [hsplit inferInstance PsRow.rss, sum_over_walk hdescperm PsRow.rss gr hgrrow]
  · -- permutation invariance of the result
    intro rows2 hperm2
    have hmperm : ∀ q, (buildChildrenMap rows2 q).Perm (buildChildrenMap rows q) :=
      buildChildrenMap_perm hperm2
    obtain ⟨l2, hl2, hl2perm⟩ :=
      walk_perm hedge hmperm (rank r0.pid + 1) r0.pid (Nat.lt_succ_self _) fuel l hlf
    have hsm : buildStatsMap rows2 = buildStatsMap rows :=
      funext (buildStatsMap_perm hnd hperm2)
    have hown2 : buildStatsMap rows2 r0.pid = some (r0.cpu, r0.mem, r0.rss) := by
      rw [hsm]
      exact hown
    have hagg2 := aggregateOne_eq hown2 hl2
    rw [hsm] at hagg2
    have hsome2 : ∀ d ∈ l2, (buildStatsMap rows d).isSome := by
      intro d hd
      exact hsome d (hl2perm.mem_iff.mp hd)
    have hfold2 := foldl_addStats (buildStatsMap rows) l2 r0.cpu r0.mem r0.rss hsome2
    rw [hfold2] at hagg2
    rw [hagg2]
    have e1 : (l2.map gc).sum = (l.map gc).sum := (hl2perm.map gc).sum_eq
    have e2 : (l2.map gm).sum = (l.map gm).sum := (hl2perm.map gm).sum_eq
    have e3 : (l2.map gr).sum = (l.map gr).sum := (hl2perm.map gr).sum_eq
    rw [e1, e2, e3]
  · -- the spec's concrete example
    norm_num [aggregateOne, buildStatsMap, buildChildrenMap, getDescendantsFromTree,
      descListAux, addStats, scenarioRows, ProcessStats.mk.injEq]

/-- Witness for C2 at the spec's concrete table, with an explicit rank
function certifying well-formedness. -/
theorem C2_aggregate_closure_sum_witness :
    (∃ s : ProcessStats, aggregateOne scenarioRows 2 100 = some s ∧
      s.cpu = ((scenarioRows.filter (fun r => decide (r.pid = 100) ||
        reachB (buildChildrenMap scenarioRows) 2 100 r.pid)).map PsRow.cpu).sum ∧
      s.memory = ((scenarioRows.filter (fun r => decide (r.pid = 100) ||
        reachB (buildChildrenMap scenarioRows) 2 100 r.pid)).map PsRow.mem).sum ∧
      s.rss = ((scenarioRows.filter (fun r => decide (r.pid = 100) ||
        reachB (buildChildrenMap scenarioRows) 2 100 r.pid)).map PsRow.rss).sum ∧
      (∀ rows2 : List PsRow, rows2.Perm scenarioRows → aggregateOne rows2 2 100 = some s)) ∧
    (∀ d, reachB (buildChildrenMap scenarioRows) 2 100 d = true ↔
      Relation.TransGen (childRel (buildChildrenMap scenarioRows)) 100 d) ∧
    aggregateOne scenarioRows 2 100 = some ⟨100, 6, 6, 60⟩ :=
  C2_aggregate_closure_sum scenarioRows
    (fun q => if q = 100 then 1 else if q = 1 then 2 else 0)
    (by decide) (by decide) ⟨100, 1, 1, 1, 10⟩ (List.mem_cons_self _ _) 2 (by decide)

/-! ## C9: the in-memory hook ring buffer (src/watch.ts:119-128) -/

theorem addHookToBuffer_as_drop (b : List HookEntry) (x : HookEntry) :
    addHookToBuffer b x = (b ++ [x]).drop ((b ++ [x]).length - MAX_HOOKS_BUFFER) := by
  simp only [addHookToBuffer]
  by_cases h : MAX_HOOKS_BUFFER < (b ++ [x]).length
  · rw [if_pos h]
  · rw [if_neg h, Nat.sub_eq_zero_of_le (Nat.le_of_not_lt h), List.drop_zero]

theorem addHookToBuffer_foldl (l : List HookEntry) :
    ∀ b : List HookEntry, b.length ≤ MAX_HOOKS_BUFFER →
      l.foldl addHookToBuffer b = (b ++ l).drop ((b ++ l).length - MAX_HOOKS_BUFFER) ∧
      (l.foldl addHookToBuffer b).length ≤ MAX_HOOKS_BUFFER := by
  induction l with
  | nil =>
    intro b hb
    simp [Nat.sub_eq_zero_of_le hb, hb]
  | cons x l ih =>
    intro b hb
    rw [List.foldl_cons, addHookToBuffer_as_drop]
    have hkle : (b ++ [x]).length - MAX_HOOKS_BUFFER ≤ (b ++ [x]).length := Nat.sub_le _ _
    have hlen' : (((b ++ [x]).drop ((b ++ [x]).length - MAX_HOOKS_BUFFER))).length
        ≤ MAX_HOOKS_BUFFER := by
      rw [List.length_drop]
      simp only [List.length_append, List.length_singleton, MAX_HOOKS_BUFFER]
      omega
    obtain ⟨heq, hle⟩ := ih _ hlen'
    refine ⟨heq.trans ?_, hle⟩
    have hstep1 : ((b ++ [x]).drop ((b ++ [x]).length - MAX_HOOKS_BUFFER)) ++ l
        = (b ++ x :: l).drop ((b ++ [x]).length - MAX_HOOKS_BUFFER) := by
      rw [← List.drop_append_of_le_length hkle, List.append_assoc, List.singleton_append]
    rw [hstep1, List.length_drop, List.drop_drop]
    have hb100 : b.length ≤ 100 := hb
    have hfin : ∀ j j2 : Nat, j = j2 → (b ++ x :: l).drop j = (b ++ x :: l).drop j2 := by
      intro j j2 hj
      rw [hj]
    apply hfin
    have h1 : (b ++ [x]).length = b.length + 1 := by simp
    have h2 : (b ++ x :: l).length = b.length + 1 + l.length := by
      simp
      omega
    have hM : MAX_HOOKS_BUFFER = 100 := rfl
    rw [h1, h2, hM]
    omega

/-- C9: the hook ring buffer has fixed capacity 100: folding any list of 150
entries into the empty buffer leaves exactly the last 100 entries, in their
original relative arrival order (the first 50 - the oldest - are dropped),
and the buffer is the list exposed as the most-recent-N in arrival order. -/
theorem C9_ring_buffer_capacity (entries : List HookEntry) (h : entries.length = 150) :
    entries.foldl addHookToBuffer [] = entries.drop 50 ∧
    (entries.foldl addHookToBuffer []).length = 100 := by
  obtain ⟨heq, _⟩ := addHookToBuffer_foldl entries [] (by simp [MAX_HOOKS_BUFFER])
  have h50 : entries.length - MAX_HOOKS_BUFFER = 50 := by
    simp [h, MAX_HOOKS_BUFFER]
  constructor
  · simpa [h50] using heq
  · have : (entries.drop 50).length = 100 := by simp [h]
    simpa [h50, this] using congrArg List.length heq

/-- Witness for C9 at a concrete input: 150 concrete entries. -/
theorem C9_ring_buffer_capacity_witness :
    ((List.range 150).map (fun i => HookEntry.mk (toString i) "" "PreToolUse" [])).length = 150 ∧
    (((List.range 150).map (fun i => HookEntry.mk (toString i) "" "PreToolUse" [])).foldl
        addHookToBuffer [] =
      ((List.range 150).map (fun i => HookEntry.mk (toString i) "" "PreToolUse" [])).drop 50 ∧
      (((List.range 150).map (fun i => HookEntry.mk (toString i) "" "PreToolUse" [])).foldl
          addHookToBuffer []).length = 100) :=
  ⟨by simp, C9_ring_buffer_capacity _ (by simp)⟩

/-! ## C3: the TTL cache bounds Aggregate's ps calls, but Classify is uncached -/

theorem stepRequest_hit (rows : List PsRow) (arows : List AgentRow) (fuel : Nat)
    (d : List (Nat × ProcessStats)) (t0 now : Nat) (pids : List Nat)
    (hnow : now < t0 + STATS_CACHE_TTL) :
    (stepRequest rows arows fuel (some ⟨d, t0⟩) (now, PsRequest.aggregate pids)).1
        = some ⟨d, t0⟩ ∧
    (stepRequest rows arows fuel (some ⟨d, t0⟩) (now, PsRequest.aggregate pids)).2 = 0 := by
  by_cases hp : pids = []
  · subst hp
    simp [stepRequest, getProcessStatsBatchC]
  · have hTTL : STATS_CACHE_TTL = 5000 := rfl
    have hhit : now - t0 < STATS_CACHE_TTL := by
      rw [hTTL]
      rw [hTTL] at hnow
      omega
    simp [stepRequest, getProcessStatsBatchC, hp, hhit]

theorem runRequests_window (rows : List PsRow) (arows : List AgentRow) (fuel : Nat)
    (d : List (Nat × ProcessStats)) (t0 : Nat) :
    ∀ rest : List (Nat × List Nat), (∀ r ∈ rest, r.1 < t0 + STATS_CACHE_TTL) →
      runRequests rows arows fuel (some ⟨d, t0⟩) (aggTrace rest) = (some ⟨d, t0⟩, 0) := by
  intro rest
  induction rest with
  | nil => intro _; rfl
  | cons r rest ih =>
    intro h
    obtain ⟨hc1, hc2⟩ := stepRequest_hit rows arows fuel d t0 r.1 r.2 (h r (by simp))
    simp only [aggTrace, List.map_cons, runRequests]
    rw [hc1, hc2]
    have ihr := ih (fun x hx => h x (by simp [hx]))
    simp only [aggTrace] at ihr
    rw [ihr]
    simp

theorem stepRequest_first (rows : List PsRow) (arows : List AgentRow) (fuel : Nat)
    (t0 : Nat) (pids : List Nat) (h : pids ≠ []) :
    stepRequest rows arows fuel none (t0, PsRequest.aggregate pids)
      = (some ⟨computeStatsBatch rows fuel pids, t0⟩, 1) := by
  simp [stepRequest, getProcessStatsBatchC, h]

theorem stepRequest_expired (rows : List PsRow) (arows : List AgentRow) (fuel : Nat)
    (d : List (Nat × ProcessStats)) (t0 t2 : Nat) (pids : List Nat) (h2 : pids ≠ [])
    (ht : ¬ (t2 - t0 < STATS_CACHE_TTL)) :
    (stepRequest rows arows fuel (some ⟨d, t0⟩) (t2, PsRequest.aggregate pids)).2 = 1 := by
  simp [stepRequest, getProcessStatsBatchC, h2, ht]

/-- C3 counterexample: the claim says that within one 5 s TTL window, any mix
of Aggregate and Classify requests issues at most one underlying
process-listing call in total.  On the concrete trace "Aggregate([100]) at
t=0, then Classify([100]) at t=1000" - both inside one window - the code
issues two `ps` invocations, because `detectAgentsBatch` has no cache: only
`getProcessStatsBatch` consults `statsCache`. -/
theorem C3_counterexample_classify_uncached :
    ¬ ((runRequests scenarioRows [] 2 none
      [(0, PsRequest.aggregate [100]), (1000, PsRequest.classify [100])]).2 ≤ 1) := by
  have h1 := stepRequest_first scenarioRows [] 2 0 [100] (by simp)
  have hcls : ∀ cache, (stepRequest scenarioRows [] 2 cache
      (1000, PsRequest.classify [100])).2 = 1 := by
    intro cache
    simp [stepRequest, detectAgentsBatchC]
  simp only [runRequests, h1, hcls]
  norm_num

/-- C3 (amended): within one TTL window the *Aggregate* side issues exactly
one process-listing call no matter how many Aggregate requests are made: the
first call (nonempty pid list, cold cache) issues it and populates the
cache, every further Aggregate request whose `Date.now()` sample lies before
`t0 + 5000` is served from the cache with zero calls and leaves the cache
unchanged; the first Aggregate request at or after expiry issues exactly one
new call.  Classify requests are uncached: every Classify call with a
nonempty pid list issues its own process-listing call. -/
theorem C3_amended_ttl_cache (rows : List PsRow) (arows : List AgentRow) (fuel : Nat)
    (t0 : Nat) (pids0 : List Nat) (rest : List (Nat × List Nat))
    (t2 : Nat) (pids2 : List Nat)
    (h0 : pids0 ≠ []) (hrest : ∀ r ∈ rest, r.1 < t0 + STATS_CACHE_TTL)
    (h2 : pids2 ≠ []) (ht2 : ¬ (t2 - t0 < STATS_CACHE_TTL)) :
    (runRequests rows arows fuel none (aggTrace ((t0, pids0) :: rest))).2 = 1 ∧
    (runRequests rows arows fuel none
      (aggTrace ((t0, pids0) :: rest) ++ [(t2, PsRequest.aggregate pids2)])).2 = 2 ∧
    (∀ pids : List Nat, pids ≠ [] → (detectAgentsBatchC arows fuel pids).2 = 1) := by
  have h1 := stepRequest_first rows arows fuel t0 pids0 h0
  have hwin := runRequests_window rows arows fuel (computeStatsBatch rows fuel pids0) t0 rest hrest
  have happ : ∀ (l1 l2 : List (Nat × PsRequest)) (cache : Option StatsCache),
      (runRequests rows arows fuel cache (l1 ++ l2)).2
        = (runRequests rows arows fuel cache l1).2
          + (runRequests rows arows fuel (runRequests rows arows fuel cache l1).1 l2).2 ∧
      (runRequests rows arows fuel cache (l1 ++ l2)).1
        = (runRequests rows arows fuel (runRequests rows arows fuel cache l1).1 l2).1 := by
    intro l1
    induction l1 with
    | nil => intro l2 cache; simp [runRequests]
    | cons r l1 ih =>
      intro l2 cache
      simp only [List.cons_append, runRequests, List.append_eq]
      obtain ⟨ha, hb⟩ := ih l2 (stepRequest rows arows fuel cache r).1
      exact ⟨by rw [ha]; omega, by rw [hb]⟩
  have hrun1 : runRequests rows arows fuel none (aggTrace ((t0, pids0) :: rest))
      = (some ⟨computeStatsBatch rows fuel pids0, t0⟩, 1) := by
    simp only [aggTrace, List.map_cons, runRequests, h1]
    simp only [aggTrace] at hwin
    rw [hwin]
    simp
  refine ⟨by rw [hrun1], ?_, ?_⟩
  · obtain ⟨ha, _⟩ := happ (aggTrace ((t0, pids0) :: rest)) [(t2, PsRequest.aggregate pids2)] none
    rw [ha, hrun1]
    have hexp := stepRequest_expired rows arows fuel
      (computeStatsBatch rows fuel pids0) t0 t2 pids2 h2 ht2
    simp only [runRequests, hexp]
  · intro pids hp
    simp [detectAgentsBatchC, hp]

/-- Witness for C3's amended theorem: a 3-request in-window Aggregate trace,
then an Aggregate at expiry. -/
theorem C3_amended_ttl_cache_witness :
    (runRequests scenarioRows [] 2 none
      (aggTrace ((0, [100]) :: [(1000, [100]), (4999, [200])]))).2 = 1 ∧
    (runRequests scenarioRows [] 2 none
      (aggTrace ((0, [100]) :: [(1000, [100]), (4999, [200])]) ++
        [(5000, PsRequest.aggregate [100])])).2 = 2 ∧
    (∀ pids : List Nat, pids ≠ [] → (detectAgentsBatchC [] 2 pids).2 = 1) :=
  C3_amended_ttl_cache scenarioRows [] 2 0 [100] [(1000, [100]), (4999, [200])] 5000 [100]
    (by simp) (by decide) (by simp) (by decide)

/-! ## C5: classification matching and traversal order -/

/-- The scan loop of tmux.ts:572-595 is the first successful per-process
match over the pid list. -/
theorem scanAgents_eq (info : Nat → Option (String × String)) :
    ∀ l : List Nat, scanAgents info l
      = l.findSome? (fun q => (info q).bind matchProcess) := by
  intro l
  induction l with
  | nil => rfl
  | cons q qs ih =>
    rcases hq : info q with _ | i
    · simp [scanAgents, List.findSome?_cons, hq, ih]
    · rcases hm : matchProcess i with _ | d
      · simp [scanAgents, List.findSome?_cons, hq, hm, ih]
      · simp [scanAgents, List.findSome?_cons, hq, hm]

/-- C5 counterexample: the claim says processes are examined in breadth
order from the root outward.  On `bfsRows`, the source traversal
(root, children, then each child's full subtree block) reaches the depth-3
claude process before the depth-2 codex process, while breadth order reaches
codex first: the two classification results differ. -/
theorem C5_counterexample_not_breadth_order :
    detectOne bfsRows 6 1 = some (some ⟨AgentType.claude, "/usr/bin/claude"⟩) ∧
    bfsDetect bfsRows 6 1 = some ⟨AgentType.codex, "/usr/bin/codex"⟩ ∧
    (⟨AgentType.claude, "/usr/bin/claude"⟩ : DetectedAgent)
      ≠ ⟨AgentType.codex, "/usr/bin/codex"⟩ := by
  refine ⟨by decide, by decide, by decide⟩

/-- C5 (amended): when classifying a pid's subtree, each process is matched
first by exact (lowercased) command-name lookup in the fixed set of known
agent binaries, then - only if that misses - by the substring match
`"/name"` / `" name "` against its full argument string, the known agents
tried in entry order; the first matching process wins; and processes are
examined in the order produced by the recursive descendant walk (the root,
then its children, then each child's full subtree block in order), not in
global breadth order. -/
theorem C5_amended_first_match_walk_order (rows : List AgentRow) (fuel pid : Nat)
    (ds : List Nat)
    (hds : getDescendantsFromTree (buildChildrenMapA rows) fuel pid = some ds) :
    detectOne rows fuel pid
      = some ((pid :: ds).findSome?
          (fun q => (buildInfoMap rows q).bind matchProcess)) ∧
    (∀ comm args : String, ∀ a : AgentType,
      KNOWN_AGENTS.lookup (lowerAscii comm) = some a →
        matchProcess (comm, args) = some ⟨a, args⟩) ∧
    (∀ comm args : String, KNOWN_AGENTS.lookup (lowerAscii comm) = none →
      matchProcess (comm, args)
        = (KNOWN_AGENTS.find? (fun e =>
            strIncludes (lowerAscii args) ("/" ++ e.1) ||
            strIncludes (lowerAscii args) (" " ++ e.1 ++ " "))).map
              (fun e => ⟨e.2, args⟩)) := by
  refine ⟨?_, ?_, ?_⟩
  · simp only [detectOne, hds, scanAgents_eq]
  · intro comm args a hl
    simp only [matchProcess, hl]
  · intro comm args hl
    simp only [matchProcess, hl]
    rcases hf : KNOWN_AGENTS.find? (fun e =>
        strIncludes (lowerAscii args) ("/" ++ e.1) ||
        strIncludes (lowerAscii args) (" " ++ e.1 ++ " ")) with _ | e <;>
      simp [hf]

/-- Witness for C5's amended theorem on the concrete tree `bfsRows`. -/
theorem C5_amended_first_match_walk_order_witness :
    detectOne bfsRows 6 1
      = some (((1 : Nat) :: [2, 3, 4, 5, 6]).findSome?
          (fun q => (buildInfoMap bfsRows q).bind matchProcess)) ∧
    (∀ comm args : String, ∀ a : AgentType,
      KNOWN_AGENTS.lookup (lowerAscii comm) = some a →
        matchProcess (comm, args) = some ⟨a, args⟩) ∧
    (∀ comm args : String, KNOWN_AGENTS.lookup (lowerAscii comm) = none →
      matchProcess (comm, args)
        = (KNOWN_AGENTS.find? (fun e =>
            strIncludes (lowerAscii args) ("/" ++ e.1) ||
            strIncludes (lowerAscii args) (" " ++ e.1 ++ " "))).map
              (fun e => ⟨e.2, args⟩)) :=
  C5_amended_first_match_walk_order bfsRows 6 1 [2, 3, 4, 5, 6] (by decide)

/-! ## C4: agent-identity priority and memo monotonicity (watch.ts:624-653) -/

theorem mapGetS_set_self {α : Type} (m : List (String × α)) (k : String) (v : α) :
    mapGetS (mapSetS m k v) k = some v := by
  induction m with
  | nil => simp [mapGetS, mapSetS]
  | cons e m ih =>
    by_cases h : e.1 = k
    · simp [mapGetS, mapSetS, h]
    · simp only [mapSetS, if_neg h]
      have hd : (decide (e.1 = k)) = false := by simp [h]
      simp only [mapGetS, List.find?_cons, hd]
      simpa [mapGetS] using ih

theorem mapGetS_set_ne {α : Type} (m : List (String × α)) (k k' : String) (v : α)
    (h : k' ≠ k) : mapGetS (mapSetS m k v) k' = mapGetS m k' := by
  have hkk : ¬ (k = k') := fun hh => h hh.symm
  induction m with
  | nil => simp [mapSetS, mapGetS, hkk]
  | cons e m ih =>
    by_cases he : e.1 = k
    · subst he
      simp [mapSetS, mapGetS, hkk, List.find?_cons]
    · simp only [mapSetS, if_neg he]
      by_cases he2 : e.1 = k'
      · simp [mapGetS, List.find?_cons, he2]
      · have hd : (decide (e.1 = k')) = false := by simp [he2]
        simp only [mapGetS, List.find?_cons, hd]
        simpa [mapGetS] using ih

theorem agentTypeStr_ne_empty : ∀ a : AgentType, agentTypeStr a ≠ "" := by
  intro a
  cases a <;> decide

/-- C4: identifying a session's agent follows the strict priority "explicit
`meta.agent` over memo cache over live scan"; a successful live scan writes
its result into the memo; nonempty memo entries are never cleared or changed
by any call; and once a session name has been memoized by a scan, every
later call (without explicit metadata) returns that same identity and leaves
the cache untouched, even if the live detection map is now empty. -/
theorem C4_agent_identity_priority :
    (∀ (session : TmuxSessionInfo) (meta : SessionMetaEntry) (a : AgentType)
        (det : List (Nat × DetectedAgent)) (cache : List (String × String)) (ao : Bool),
      meta.agent = some a →
        getSessionAgent session (some meta) det cache ao = (some (agentTypeStr a), cache)) ∧
    (∀ (session : TmuxSessionInfo) (meta : Option SessionMetaEntry) (c : String)
        (det : List (Nat × DetectedAgent)) (cache : List (String × String)) (ao : Bool),
      meta.bind SessionMetaEntry.agent = none → mapGetS cache session.name = some c →
      c ≠ "" → getSessionAgent session meta det cache ao = (some c, cache)) ∧
    (∀ (session : TmuxSessionInfo) (meta : Option SessionMetaEntry)
        (det : List (Nat × DetectedAgent)) (cache : List (String × String)) (ao : Bool)
        (d : DetectedAgent),
      meta.bind SessionMetaEntry.agent = none → mapGetS cache session.name = none →
      paneScan (getFilteredWindows session ao) det = some d →
        getSessionAgent session meta det cache ao
          = (some (agentTypeStr d.agent), mapSetS cache session.name (agentTypeStr d.agent)) ∧
        mapGetS (mapSetS cache session.name (agentTypeStr d.agent)) session.name
          = some (agentTypeStr d.agent)) ∧
    (∀ (session : TmuxSessionInfo) (meta : Option SessionMetaEntry)
        (det : List (Nat × DetectedAgent)) (cache : List (String × String)) (ao : Bool)
        (k : String) (v : String),
      v ≠ "" → mapGetS cache k = some v →
        mapGetS (getSessionAgent session meta det cache ao).2 k = some v) ∧
    (∀ (session : TmuxSessionInfo) (meta meta2 : Option SessionMetaEntry)
        (det det2 : List (Nat × DetectedAgent)) (cache : List (String × String)) (ao : Bool)
        (d : DetectedAgent),
      meta.bind SessionMetaEntry.agent = none → mapGetS cache session.name = none →
      meta2.bind SessionMetaEntry.agent = none →
      paneScan (getFilteredWindows session ao) det = some d →
        getSessionAgent session meta2 det2 (getSessionAgent session meta det cache ao).2 ao
          = (some (agentTypeStr d.agent), (getSessionAgent session meta det cache ao).2)) := by
  have h1 : ∀ (session : TmuxSessionInfo) (meta : SessionMetaEntry) (a : AgentType)
      (det : List (Nat × DetectedAgent)) (cache : List (String × String)) (ao : Bool),
      meta.agent = some a →
        getSessionAgent session (some meta) det cache ao = (some (agentTypeStr a), cache) := by
    intro session meta a det cache ao h
    simp [getSessionAgent, h]
  have h2 : ∀ (session : TmuxSessionInfo) (meta : Option SessionMetaEntry) (c : String)
      (det : List (Nat × DetectedAgent)) (cache : List (String × String)) (ao : Bool),
      meta.bind SessionMetaEntry.agent = none → mapGetS cache session.name = some c →
      c ≠ "" → getSessionAgent session meta det cache ao = (some c, cache) := by
    intro session meta c det cache ao hm hc hne
    simp only [getSessionAgent, hm, hc]
    rw [if_neg hne]
  have h3 : ∀ (session : TmuxSessionInfo) (meta : Option SessionMetaEntry)
      (det : List (Nat × DetectedAgent)) (cache : List (String × String)) (ao : Bool)
      (d : DetectedAgent),
      meta.bind SessionMetaEntry.agent = none → mapGetS cache session.name = none →
      paneScan (getFilteredWindows session ao) det = some d →
        getSessionAgent session meta det cache ao
          = (some (agentTypeStr d.agent), mapSetS cache session.name (agentTypeStr d.agent)) ∧
        mapGetS (mapSetS cache session.name (agentTypeStr d.agent)) session.name
          = some (agentTypeStr d.agent) := by
    intro session meta det cache ao d hm hc hscan
    constructor
    · simp [getSessionAgent, hm, hc, getSessionAgentScan, hscan]
    · exact mapGetS_set_self cache session.name (agentTypeStr d.agent)
  refine ⟨h1, h2, h3, ?_, ?_⟩
  · intro session meta det cache ao k v hv hk
    rcases hm : meta.bind SessionMetaEntry.agent with _ | a
    · rcases hc : mapGetS cache session.name with _ | c
      · rcases hscan : paneScan (getFilteredWindows session ao) det with _ | d
        · simp [getSessionAgent, hm, hc, getSessionAgentScan, hscan, hk]
        · have hstep : getSessionAgent session meta det cache ao
              = (some (agentTypeStr d.agent),
                 mapSetS cache session.name (agentTypeStr d.agent)) := by
            simp [getSessionAgent, hm, hc, getSessionAgentScan, hscan]
          rw [hstep]
          by_cases hkn : k = session.name
          · subst hkn
            rw [hk] at hc
            cases hc
          · rw [mapGetS_set_ne cache session.name k _ hkn]
            exact hk
      · by_cases hce : c = ""
        · subst hce
          rcases hscan : paneScan (getFilteredWindows session ao) det with _ | d
          · simp [getSessionAgent, hm, hc, getSessionAgentScan, hscan, hk]
          · have hstep : getSessionAgent session meta det cache ao
                = (some (agentTypeStr d.agent),
                   mapSetS cache session.name (agentTypeStr d.agent)) := by
              simp [getSessionAgent, hm, hc, getSessionAgentScan, hscan]
            rw [hstep]
            by_cases hkn : k = session.name
            · subst hkn
              rw [hk] at hc
              cases hc
              exact absurd rfl hv
            · rw [mapGetS_set_ne cache session.name k _ hkn]
              exact hk
        · rw [h2 session meta c det cache ao hm hc hce]
          exact hk
    · rcases meta with _ | meta
      · cases hm
      · have hma : meta.agent = some a := hm
        rw [h1 session meta a det cache ao hma]
        exact hk
  · intro session meta meta2 det det2 cache ao d hm hc hm2 hscan
    obtain ⟨hcall, hmem⟩ := h3 session meta det cache ao d hm hc hscan
    rw [hcall]
    exact h2 session meta2 (agentTypeStr d.agent) det2 _ ao hm2 hmem
      (agentTypeStr_ne_empty d.agent)

/-- Witness for C4: each tier of the priority instantiated on a concrete
session whose pane pid 42 is detected as claude. -/
theorem C4_agent_identity_priority_witness :
    getSessionAgent wSession (some wMeta) wDet [] false = (some "codex", []) ∧
    getSessionAgent wSession none wDet [("s1", "gemini")] false
      = (some "gemini", [("s1", "gemini")]) ∧
    (getSessionAgent wSession none wDet [] false
        = (some "claude", mapSetS [] "s1" "claude") ∧
      mapGetS (mapSetS ([] : List (String × String)) "s1" "claude") "s1" = some "claude") ∧
    mapGetS (getSessionAgent wSession none wDet [("x", "v")] false).2 "x" = some "v" ∧
    getSessionAgent wSession none [] (getSessionAgent wSession none wDet [] false).2 false
      = (some "claude", (getSessionAgent wSession none wDet [] false).2) :=
  ⟨C4_agent_identity_priority.1 wSession wMeta AgentType.codex wDet [] false rfl,
   C4_agent_identity_priority.2.1 wSession none "gemini" wDet [("s1", "gemini")] false rfl
     (by decide) (by decide),
   C4_agent_identity_priority.2.2.1 wSession none wDet [] false
     ⟨AgentType.claude, "claude"⟩ rfl rfl (by decide),
   C4_agent_identity_priority.2.2.2.1 wSession none wDet [("x", "v")] false "x" "v"
     (by decide) (by decide),
   C4_agent_identity_priority.2.2.2.2 wSession none none wDet [] [] false
     ⟨AgentType.claude, "claude"⟩ rfl rfl rfl (by decide)⟩

/-! ## C6: the scroll-offset invariant of the session renderer -/

/-- C6: whenever the session panel actually scrolls (the content exceeds the
panel's line budget `H + 2`, of which `H ≥ 1` lines show content and 2 are
reserved for the scroll indicators) and a content line `sel` is selected,
the clamped offset lies in `[0, max 0 (L - H)]` and the selected line lies
inside the visible window `[offset, offset + H)`; in particular with 10
visible content lines, 25 content lines and selection at index 24, the
offset resolves to 15, making the selection the last visible line. -/
theorem C6_scroll_offset_invariant (L H sel off : Nat)
    (hH : 1 ≤ H) (hL : H + 2 < L) (hsel : sel < L) :
    (clampScrollOffset L (H + 2) (some sel) off ≤ max 0 (L - H) ∧
     clampScrollOffset L (H + 2) (some sel) off ≤ sel ∧
     sel < clampScrollOffset L (H + 2) (some sel) off + H) ∧
    clampScrollOffset 25 12 (some 24) 0 = 15 := by
  constructor
  · have hfit : ¬ (L ≤ H + 2) := by omega
    have heff : max 1 (H + 2 - 2) = H := by omega
    simp only [clampScrollOffset, if_neg hfit, heff]
    by_cases h1 : sel < off
    · simp only [if_pos h1]
      omega
    · simp only [if_neg h1]
      by_cases h2 : off + H ≤ sel
      · simp only [if_pos h2]
        omega
      · simp only [if_neg h2]
        omega
  · decide

/-- Witness for C6 at the spec's example: budget 12 = 10 visible lines + 2
indicator lines, 25 content lines, selection at 24, incoming offset 0. -/
theorem C6_scroll_offset_invariant_witness :
    (clampScrollOffset 25 (10 + 2) (some 24) 0 ≤ max 0 (25 - 10) ∧
     clampScrollOffset 25 (10 + 2) (some 24) 0 ≤ 24 ∧
     24 < clampScrollOffset 25 (10 + 2) (some 24) 0 + 10) ∧
    clampScrollOffset 25 12 (some 24) 0 = 15 :=
  C6_scroll_offset_invariant 25 10 24 0 (by decide) (by decide) (by decide)

/-! ## C10: short pane-listing lines are discarded wholesale -/

/-- C10: a pane-listing line that splits into fewer than 11 tab-delimited
fields leaves the entire parsing state untouched - no pane is produced, no
window is created, no session is modified - and consequently deleting such
a line from anywhere in the pane listing does not change the final parse. -/
theorem C10_short_pane_line_discarded (st : PaneParseState) (line : String)
    (h : (jsSplitTab line).length < 11) :
    paneStep st line = st ∧
    (∀ (pre post : List String),
      processPaneLines st (pre ++ line :: post) = processPaneLines st (pre ++ post)) := by
  have hstepAll : ∀ st2 : PaneParseState, paneStep st2 line = st2 := by
    intro st2
    simp only [paneStep]
    split
    · rename_i sessionName windowIndex windowName windowActive paneIndex paneId panePid
        paneActive command cwd idle tail heq
      rw [heq] at h
      simp only [List.length_cons] at h
      omega
    · rfl
  refine ⟨hstepAll st, fun pre post => ?_⟩
  simp only [processPaneLines, List.foldl_append, List.foldl_cons, hstepAll]

/-- Witness for C10: a 2-field line against a state holding one session. -/
theorem C10_short_pane_line_discarded_witness :
    paneStep ⟨[("s1", (wSession, []))], []⟩ "s1\t0" = ⟨[("s1", (wSession, []))], []⟩ ∧
    (∀ (pre post : List String),
      processPaneLines ⟨[("s1", (wSession, []))], []⟩ (pre ++ "s1\t0" :: post)
        = processPaneLines ⟨[("s1", (wSession, []))], []⟩ (pre ++ post)) :=
  C10_short_pane_line_discarded ⟨[("s1", (wSession, []))], []⟩ "s1\t0" (by decide)

/-! ## C7: rendering reads the wall clock and writes back scroll/memo state

`renderSessions` samples `Date.now()` (watch.ts:665), so two calls with
identical state and fetched inputs can differ; and it writes
`state.scrollOffset` and `state.agentCache` in place.  The helpers below show
those write-backs are benign: with the clock sample fixed, a second call from
the written-back state reproduces the identical output. -/

/-- A lookup in a map whose values are all nonempty returns a nonempty
value. -/
theorem mapGetS_vals {c : List (String × String)} {k v : String}
    (hval : ∀ p ∈ c, p.2 ≠ "") (h : mapGetS c k = some v) : v ≠ "" := by
  cases hfind : c.find? (fun e => e.1 = k) with
  | none => simp [mapGetS, hfind] at h
  | some e =>
    have he := List.mem_of_find?_eq_some hfind
    have h2 : e.2 = v := by simpa [mapGetS, hfind] using h
    exact h2 ▸ hval e he

/-- Writing a nonempty value preserves all-values-nonempty. -/
theorem mapSetS_vals {k v : String} (hv : v ≠ "") :
    ∀ c : List (String × String), (∀ p ∈ c, p.2 ≠ "") →
      ∀ p ∈ mapSetS c k v, p.2 ≠ "" := by
  intro c
  induction c with
  | nil =>
    intro _ p hp
    simp only [mapSetS, List.mem_singleton] at hp
    subst hp
    exact hv
  | cons e rest ih =>
    intro hval p hp
    simp only [mapSetS] at hp
    by_cases he : e.1 = k
    · rw [if_pos he] at hp
      rcases List.mem_cons.mp hp with h1 | h2
      · subst h1; exact hv
      · exact hval p (List.mem_cons_of_mem _ h2)
    · rw [if_neg he] at hp
      rcases List.mem_cons.mp hp with h1 | h2
      · subst h1; exact hval p (List.mem_cons_self _ _)
      · exact ih (fun q hq => hval q (List.mem_cons_of_mem _ hq)) p h2

/-- The live scan writes only nonempty agent names into the memo cache. -/
theorem getSessionAgentScan_vals (s : TmuxSessionInfo)
    (da : List (Nat × DetectedAgent)) (c : List (String × String)) (ao : Bool)
    (hval : ∀ p ∈ c, p.2 ≠ "") :
    ∀ p ∈ (getSessionAgentScan s da c ao).2, p.2 ≠ "" := by
  rcases hp : paneScan (getFilteredWindows s ao) da with _ | d
  · simpa [getSessionAgentScan, hp] using hval
  · simp only [getSessionAgentScan, hp]
    exact mapSetS_vals (agentTypeStr_ne_empty d.agent) c hval

/-- The live scan leaves every other session's memo entry unchanged. -/
theorem getSessionAgentScan_untouched (s : TmuxSessionInfo)
    (da : List (Nat × DetectedAgent)) (c : List (String × String)) (ao : Bool)
    (k : String) (hk : k ≠ s.name) :
    mapGetS (getSessionAgentScan s da c ao).2 k = mapGetS c k := by
  rcases hp : paneScan (getFilteredWindows s ao) da with _ | d
  · simp [getSessionAgentScan, hp]
  · simp only [getSessionAgentScan, hp]
    exact mapGetS_set_ne c s.name k (agentTypeStr d.agent) hk

/-- `getSessionAgent` keeps the memo cache's values nonempty. -/
theorem getSessionAgent_vals (s : TmuxSessionInfo) (m : Option SessionMetaEntry)
    (da : List (Nat × DetectedAgent)) (c : List (String × String)) (ao : Bool)
    (hval : ∀ p ∈ c, p.2 ≠ "") :
    ∀ p ∈ (getSessionAgent s m da c ao).2, p.2 ≠ "" := by
  rcases hm : m.bind SessionMetaEntry.agent with _ | a
  · rcases hc : mapGetS c s.name with _ | v
    · simp only [getSessionAgent, hm, hc]
      exact getSessionAgentScan_vals s da c ao hval
    · have hv0 : v ≠ "" := mapGetS_vals hval hc
      simpa [getSessionAgent, hm, hc, hv0] using hval
  · simpa [getSessionAgent, hm] using hval

/-- `getSessionAgent` touches at most its own session's memo entry. -/
theorem getSessionAgent_untouched (s : TmuxSessionInfo) (m : Option SessionMetaEntry)
    (da : List (Nat × DetectedAgent)) (c : List (String × String)) (ao : Bool)
    (k : String) (hk : k ≠ s.name) :
    mapGetS (getSessionAgent s m da c ao).2 k = mapGetS c k := by
  rcases hm : m.bind SessionMetaEntry.agent with _ | a
  · rcases hc : mapGetS c s.name with _ | v
    · simp only [getSessionAgent, hm, hc]
      exact getSessionAgentScan_untouched s da c ao k hk
    · by_cases hv0 : v = ""
      · simp only [getSessionAgent, hm, hc, if_pos hv0]
        exact getSessionAgentScan_untouched s da c ao k hk
      · simp [getSessionAgent, hm, hc, hv0]
  · simp [getSessionAgent, hm]

/-- Replay: a later call on any cache that agrees with the written-back cache
at the session's own key (and whose starting values were nonempty) returns the
same agent name and leaves that cache unchanged. -/
theorem getSessionAgent_replay (s : TmuxSessionInfo) (m : Option SessionMetaEntry)
    (da : List (Nat × DetectedAgent)) (c : List (String × String)) (ao : Bool)
    (hval : ∀ p ∈ c, p.2 ≠ "") (c2 : List (String × String))
    (hk : mapGetS c2 s.name = mapGetS (getSessionAgent s m da c ao).2 s.name) :
    getSessionAgent s m da c2 ao = ((getSessionAgent s m da c ao).1, c2) := by
  rcases hm : m.bind SessionMetaEntry.agent with _ | a
  · rcases hc : mapGetS c s.name with _ | v
    · rcases hp : paneScan (getFilteredWindows s ao) da with _ | d
      · have hk2 : mapGetS c2 s.name = none := by
          simpa [getSessionAgent, getSessionAgentScan, hm, hc, hp] using hk
        simp [getSessionAgent, getSessionAgentScan, hm, hc, hp, hk2]
      · have hk2 : mapGetS c2 s.name = some (agentTypeStr d.agent) := by
          simpa [getSessionAgent, getSessionAgentScan, hm, hc, hp,
            mapGetS_set_self] using hk
        simp [getSessionAgent, getSessionAgentScan, hm, hc, hp, hk2,
          agentTypeStr_ne_empty d.agent]
    · have hv0 : v ≠ "" := mapGetS_vals hval hc
      have hk2 : mapGetS c2 s.name = some v := by
        simpa [getSessionAgent, hm, hc, hv0] using hk
      simp [getSessionAgent, hm, hc, hv0, hk2]
  · simp [getSessionAgent, hm]

/-- Stability of the whole per-session agent pass: starting from a cache with
nonempty values, over duplicate-free session names, the final cache keeps its
values nonempty, entries of sessions outside the list are untouched, and
replaying the pass from the final cache reproduces the same names and cache. -/
theorem agentLoop_stable (metaMap : List (String × SessionMetaEntry))
    (da : List (Nat × DetectedAgent)) (ao : Bool) :
    ∀ (ss : List TmuxSessionInfo) (c : List (String × String)),
      (∀ p ∈ c, p.2 ≠ "") → (ss.map TmuxSessionInfo.name).Nodup →
      (∀ p ∈ (agentLoop metaMap da ao ss c).2, p.2 ≠ "") ∧
      (∀ k : String, (∀ s ∈ ss, k ≠ s.name) →
        mapGetS (agentLoop metaMap da ao ss c).2 k = mapGetS c k) ∧
      agentLoop metaMap da ao ss (agentLoop metaMap da ao ss c).2
        = agentLoop metaMap da ao ss c := by
  intro ss
  induction ss with
  | nil => intro c hval _; exact ⟨hval, fun k _ => rfl, rfl⟩
  | cons s ss ih =>
    intro c hval hnd
    have hmap : (s :: ss).map TmuxSessionInfo.name
        = s.name :: ss.map TmuxSessionInfo.name := rfl
    rw [hmap, List.nodup_cons] at hnd
    obtain ⟨hns, hnd2⟩ := hnd
    rcases hg : getSessionAgent s (mapGetS metaMap s.name) da c ao with ⟨r, c2⟩
    have hval2 : ∀ p ∈ c2, p.2 ≠ "" := by
      have h := getSessionAgent_vals s (mapGetS metaMap s.name) da c ao hval
      rw [hg] at h
      exact h
    obtain ⟨ihval, ihuntouched, ihreplay⟩ := ih c2 hval2 hnd2
    rcases hA : agentLoop metaMap da ao ss c2 with ⟨rs, cf⟩
    simp only [hA] at ihval ihreplay
    have ihuntouched2 : ∀ k : String, (∀ s2 ∈ ss, k ≠ s2.name) →
        mapGetS cf k = mapGetS c2 k := by
      intro k hk
      have h := ihuntouched k hk
      rw [hA] at h
      exact h
    have hcons : agentLoop metaMap da ao (s :: ss) c = (r :: rs, cf) := by
      simp only [agentLoop, hg, hA]
    refine ⟨?_, ?_, ?_⟩
    · rw [hcons]; exact ihval
    · intro k hk
      rw [hcons]
      have h1 := ihuntouched2 k (fun s2 hs2 => hk s2 (List.mem_cons_of_mem _ hs2))
      have h2 := getSessionAgent_untouched s (mapGetS metaMap s.name) da c ao k
        (hk s (List.mem_cons_self _ _))
      rw [hg] at h2
      exact h1.trans h2
    · rw [hcons]
      have hkey : mapGetS cf s.name = mapGetS c2 s.name := by
        refine ihuntouched2 s.name (fun s2 hs2 heq => hns ?_)
        rw [heq]
        exact List.mem_map_of_mem TmuxSessionInfo.name hs2
      have hg2 : getSessionAgent s (mapGetS metaMap s.name) da cf ao = (r, cf) := by
        have h := getSessionAgent_replay s (mapGetS metaMap s.name) da c ao hval cf
          (by rw [hg]; exact hkey)
        rw [hg] at h
        exact h
      simp only [agentLoop, hg2, ihreplay]

/-- Every session contributes at least its own session line. -/
theorem sessionBlock_length_pos (ctx : RenderCtx) (i : Nat) (s : TmuxSessionInfo)
    (n : Option String) : 0 < (sessionBlock ctx i s n).length := by
  simp only [sessionBlock]
  split <;> simp

/-- The selected content-line index points at an existing content line. -/
theorem buildBlocks_sel_lt (ctx : RenderCtx) :
    ∀ (i : Nat) (ss : List TmuxSessionInfo) (ns : List (Option String))
      (ls : List String) (s0 : Nat),
      buildBlocks ctx i ss ns = (ls, some s0) → s0 < ls.length := by
  intro i ss
  induction ss generalizing i with
  | nil => intro ns ls s0 h; simp [buildBlocks] at h
  | cons s ss ih =>
    intro ns ls s0 h
    cases ns with
    | nil => simp [buildBlocks] at h
    | cons n ns =>
      rcases hB : buildBlocks ctx (i + 1) ss ns with ⟨ls2, sel2⟩
      simp only [buildBlocks, hB] at h
      rw [Prod.mk.injEq] at h
      obtain ⟨hls, hsel⟩ := h
      by_cases hi : i = ctx.selectedIndex
      · rw [if_pos hi] at hsel
        have hs0 : s0 = 0 := by
          have := Option.some.inj hsel
          omega
        subst hs0
        rw [← hls, List.length_append]
        have := sessionBlock_length_pos ctx i s n
        omega
      · rw [if_neg hi] at hsel
        rcases hx : sel2 with _ | x
        · rw [hx] at hsel; simp at hsel
        · rw [hx] at hsel
          simp only [Option.map_some'] at hsel
          have hs0 := Option.some.inj hsel
          have hlt := ih (i + 1) ns ls2 x (by rw [hB, hx])
          rw [← hls, List.length_append]
          omega

/-- Clamping the scroll offset is idempotent once the selected line (if any)
exists among the content lines. -/
theorem clampScrollOffset_idem (L m : Nat) (sel : Option Nat) (off : Nat)
    (hs : ∀ s0, sel = some s0 → s0 < L) :
    clampScrollOffset L m sel (clampScrollOffset L m sel off)
      = clampScrollOffset L m sel off := by
  by_cases hf : L ≤ m
  · simp [clampScrollOffset, hf]
  · rcases sel with _ | s0
    · simp only [clampScrollOffset, if_neg hf]
      omega
    · have hsL : s0 < L := hs s0 rfl
      simp only [clampScrollOffset, if_neg hf]
      split_ifs <;> omega

/-- The viewport step is idempotent in the written-back offset. -/
theorem renderScroll_stable (h1 h2 : String) (content : List String)
    (sel : Option Nat) (off maxLines : Nat)
    (hs : ∀ s0, sel = some s0 → s0 < content.length) :
    renderScroll h1 h2 content sel
      (renderScroll h1 h2 content sel off maxLines).2 maxLines
      = renderScroll h1 h2 content sel off maxLines := by
  by_cases hf : content.length ≤ maxLines
  · simp [renderScroll, hf]
  · have hidem := clampScrollOffset_idem content.length maxLines sel off hs
    simp [renderScroll, hf, hidem]

/-- Stability of the full renderer: re-running `renderSessionsCore` with the
written-back scroll offset and memo cache reproduces the identical output
triple. -/
theorem renderSessionsCore_stable (ctx : RenderCtx) (filter : Option String)
    (showHooks : Bool) (focus : FocusPanel) (sessions : List TmuxSessionInfo)
    (off : Nat) (cache : List (String × String)) (maxLines : Nat)
    (hval : ∀ p ∈ cache, p.2 ≠ "")
    (hnd : (sessions.map TmuxSessionInfo.name).Nodup) :
    renderSessionsCore ctx filter showHooks focus sessions
      (renderSessionsCore ctx filter showHooks focus sessions off cache maxLines).2.1
      (renderSessionsCore ctx filter showHooks focus sessions off cache maxLines).2.2
      maxLines
    = renderSessionsCore ctx filter showHooks focus sessions off cache maxLines := by
  by_cases hemp : sessions.length = 0
  · simp [renderSessionsCore, hemp]
  · obtain ⟨-, -, hreplay⟩ := agentLoop_stable ctx.metaMap ctx.detectedAgents
      ctx.agentsOnly sessions cache hval hnd
    rcases hA : agentLoop ctx.metaMap ctx.detectedAgents ctx.agentsOnly sessions cache
      with ⟨names, c2⟩
    simp only [hA] at hreplay
    rcases hB : buildBlocks ctx 0 sessions names with ⟨content, sel⟩
    have hsel : ∀ s0, sel = some s0 → s0 < content.length := by
      intro s0 h
      exact buildBlocks_sel_lt ctx 0 sessions names content s0 (h ▸ hB)
    rcases hS : renderScroll (renderHeader filter ctx.agentsOnly ctx.expandAll showHooks focus)
        headerRule content sel off maxLines with ⟨text, so⟩
    have hS2 : renderScroll (renderHeader filter ctx.agentsOnly ctx.expandAll showHooks focus)
        headerRule content sel so maxLines = (text, so) := by
      have h := renderScroll_stable (renderHeader filter ctx.agentsOnly ctx.expandAll
        showHooks focus) headerRule content sel off maxLines hsel
      simp only [hS] at h
      exact h
    have hrun : renderSessionsCore ctx filter showHooks focus sessions off cache maxLines
        = (text, so, c2) := by
      simp only [renderSessionsCore, if_neg hemp, hA, hB, hS]
    rw [hrun]
    show renderSessionsCore ctx filter showHooks focus sessions so c2 maxLines = (text, so, c2)
    simp only [renderSessionsCore, if_neg hemp, hreplay, hB, hS2]

/-- C7 counterexample: the claim lists view state, session list, event buffer
and stats as the inputs of rendering, but `renderSessions` also reads the wall
clock (watch.ts:665).  With every listed input identical — the fixture state,
no captured lines, no process stats, no detected agents, the same line budget
— two clock samples one second apart render different text (the session
duration badge changes). -/
theorem C7_counterexample_wall_clock_render :
    (renderSessions c7State [] [] [] 30 12).1 ≠ (renderSessions c7State [] [] [] 30 13).1 := by
  decide

/-- C7 (amended): with the `Date.now()` sample fixed as an explicit input,
rendering is deterministic up to its two in-place state writes
(`state.scrollOffset`, watch.ts:767/784, and `state.agentCache`, watch.ts:645),
and those writes are benign: a second call from the written-back state — under
the memo-cache invariant that cached names are nonempty and duplicate-free
session names — reproduces the identical text, offset and cache. -/
theorem C7_amended_render_deterministic_given_clock (state : RenderState)
    (capturedLines : List (String × Option String))
    (processStats : List (Nat × ProcessStats))
    (detectedAgents : List (Nat × DetectedAgent)) (maxLines : Nat) (now : Int)
    (hval : ∀ p ∈ state.agentCache, p.2 ≠ "")
    (hnd : (state.visibleSessions.map TmuxSessionInfo.name).Nodup) :
    renderSessions
      { state with
        scrollOffset :=
          (renderSessions state capturedLines processStats detectedAgents maxLines now).2.1,
        agentCache :=
          (renderSessions state capturedLines processStats detectedAgents maxLines now).2.2 }
      capturedLines processStats detectedAgents maxLines now
    = renderSessions state capturedLines processStats detectedAgents maxLines now :=
  renderSessionsCore_stable
    { showLastLine := state.showLastLine, showStats := state.showStats,
      agentsOnly := state.agentsOnly, expandAll := state.expandAll,
      selectedIndex := state.selectedIndex, metaMap := state.sessionMeta,
      capturedLines := capturedLines, processStats := processStats,
      detectedAgents := detectedAgents, now := now }
    state.filter state.showHooks state.focusPanel state.visibleSessions
    state.scrollOffset state.agentCache maxLines hval hnd

theorem C7_amended_render_deterministic_given_clock_witness :
    (∀ p ∈ c7State.agentCache, p.2 ≠ "") ∧
    (c7State.visibleSessions.map TmuxSessionInfo.name).Nodup ∧
    renderSessions
      { c7State with
        scrollOffset := (renderSessions c7State [] [] [] 30 12).2.1,
        agentCache := (renderSessions c7State [] [] [] 30 12).2.2 }
      [] [] [] 30 12
    = renderSessions c7State [] [] [] 30 12 :=
  ⟨by decide, by decide,
    C7_amended_render_deterministic_given_clock c7State [] [] [] 30 12
      (by decide) (by decide)⟩

/-! ## C8: modal exclusivity, routing priority, and escape semantics -/

/-- With at most one modal open, each open modal excludes the other four. -/
theorem modalCount_le_one_cases (st : WState) (h : modalCount st ≤ 1) :
    (st.showTemplateEditor = true →
      st.showFilterPopup = false ∧ st.showDetailedHelp = false ∧
      st.showHookDetail = false ∧ st.showHelp = false) ∧
    (st.showFilterPopup = true →
      st.showTemplateEditor = false ∧ st.showDetailedHelp = false ∧
      st.showHookDetail = false ∧ st.showHelp = false) ∧
    (st.showDetailedHelp = true →
      st.showTemplateEditor = false ∧ st.showFilterPopup = false ∧
      st.showHookDetail = false ∧ st.showHelp = false) ∧
    (st.showHookDetail = true →
      st.showTemplateEditor = false ∧ st.showFilterPopup = false ∧
      st.showDetailedHelp = false ∧ st.showHelp = false) ∧
    (st.showHelp = true →
      st.showTemplateEditor = false ∧ st.showFilterPopup = false ∧
      st.showDetailedHelp = false ∧ st.showHookDetail = false) := by
  rcases hTE : st.showTemplateEditor <;> rcases hFP : st.showFilterPopup <;>
    rcases hDH : st.showDetailedHelp <;> rcases hHD : st.showHookDetail <;>
    rcases hH : st.showHelp <;> simp_all [modalCount]

/-- A zero modal count means every modal flag is off. -/
theorem modalCount_zero (st : WState) (h : modalCount st = 0) :
    st.showTemplateEditor = false ∧ st.showFilterPopup = false ∧
    st.showDetailedHelp = false ∧ st.showHookDetail = false ∧
    st.showHelp = false := by
  rcases hTE : st.showTemplateEditor <;> rcases hFP : st.showFilterPopup <;>
    rcases hDH : st.showDetailedHelp <;> rcases hHD : st.showHookDetail <;>
    rcases hH : st.showHelp <;> simp_all [modalCount]

/-- The filter-popup block keeps at most one modal open. -/
theorem filterPopupStep_count (st : WState) (key : String)
    (hFP : st.showFilterPopup = true) (hTE : st.showTemplateEditor = false)
    (hDH : st.showDetailedHelp = false) (hHD : st.showHookDetail = false)
    (hH : st.showHelp = false) :
    modalCount (filterPopupStep st key) ≤ 1 := by
  simp only [filterPopupStep]
  rcases hfk : FILTER_KEYS[st.filterPopupIndex]? with _ | opt <;>
    simp only [hfk] <;> split_ifs <;> simp [modalCount, hFP, hTE, hDH, hHD, hH]

/-- The template-editor block keeps at most one modal open. -/
theorem templateEditorStep_count (st : WState) (key : String)
    (hTE : st.showTemplateEditor = true) (hFP : st.showFilterPopup = false)
    (hDH : st.showDetailedHelp = false) (hHD : st.showHookDetail = false)
    (hH : st.showHelp = false) :
    modalCount (templateEditorStep st key) ≤ 1 := by
  simp only [templateEditorStep]
  split_ifs <;> simp only [modalCount, hTE, hFP, hDH, hHD, hH] <;> simp

/-- The detailed-help block keeps at most one modal open. -/
theorem detailedHelpStep_count (st : WState) (key : String)
    (hDH : st.showDetailedHelp = true) (hTE : st.showTemplateEditor = false)
    (hFP : st.showFilterPopup = false) (hHD : st.showHookDetail = false)
    (hH : st.showHelp = false) :
    modalCount (detailedHelpStep st key) ≤ 1 := by
  simp only [detailedHelpStep]
  split_ifs <;> simp [modalCount, hDH, hTE, hFP, hHD, hH]

/-- The help block keeps at most one modal open (its `d` key closes help and
opens detailed help in the same keystroke). -/
theorem helpStep_count (st : WState) (key : String)
    (hH : st.showHelp = true) (hTE : st.showTemplateEditor = false)
    (hFP : st.showFilterPopup = false) (hDH : st.showDetailedHelp = false)
    (hHD : st.showHookDetail = false) :
    modalCount (helpStep st key) ≤ 1 := by
  simp only [helpStep]
  split_ifs <;> simp [modalCount, hH, hTE, hFP, hDH, hHD]

/-- The hook-detail block keeps at most one modal open. -/
theorem hookDetailStep_count (st : WState) (key : String)
    (hHD : st.showHookDetail = true) (hTE : st.showTemplateEditor = false)
    (hFP : st.showFilterPopup = false) (hDH : st.showDetailedHelp = false)
    (hH : st.showHelp = false) :
    modalCount (hookDetailStep st key) ≤ 1 := by
  simp only [hookDetailStep]
  split_ifs <;> simp [modalCount, hHD, hTE, hFP, hDH, hH]

/-- Normal navigation runs with every modal closed and opens at most one. -/
theorem normalStep_count (st : WState) (key : String)
    (hTE : st.showTemplateEditor = false) (hFP : st.showFilterPopup = false)
    (hDH : st.showDetailedHelp = false) (hHD : st.showHookDetail = false)
    (hH : st.showHelp = false) :
    modalCount (normalStep st key) ≤ 1 := by
  simp only [normalStep]
  by_cases k1 : key = "\x1b[A" || key = "k"
  · rw [if_pos k1]; split_ifs <;> simp [modalCount, hTE, hFP, hDH, hHD, hH]
  rw [if_neg k1]
  by_cases k2 : key = "\x1b[B" || key = "j"
  · rw [if_pos k2]; split_ifs <;> simp [modalCount, hTE, hFP, hDH, hHD, hH]
  rw [if_neg k2]
  by_cases k3 : key = "q" || key.data.head?.map Char.toNat = some 3
  · rw [if_pos k3]; simp [modalCount, hTE, hFP, hDH, hHD, hH]
  rw [if_neg k3]
  by_cases k4 : key = "?"
  · rw [if_pos k4]; simp [modalCount, hTE, hFP, hDH, hHD, hH]
  rw [if_neg k4]
  by_cases k5 : key = "l"
  · rw [if_pos k5]; simp [modalCount, hTE, hFP, hDH, hHD, hH]
  rw [if_neg k5]
  by_cases k6 : key = "s"
  · rw [if_pos k6]; simp [modalCount, hTE, hFP, hDH, hHD, hH]
  rw [if_neg k6]
  by_cases k7 : key = "h"
  · rw [if_pos k7]; simp [modalCount, hTE, hFP, hDH, hHD, hH]
  rw [if_neg k7]
  by_cases k8 : key = "f"
  · rw [if_pos k8]; simp [modalCount, hTE, hFP, hDH, hHD, hH]
  rw [if_neg k8]
  by_cases k9 : key = "e"
  · rw [if_pos k9]; simp [modalCount, hTE, hFP, hDH, hHD, hH]
  rw [if_neg k9]
  by_cases k10 : key = "r"
  · rw [if_pos k10]; simp [modalCount, hTE, hFP, hDH, hHD, hH]
  rw [if_neg k10]
  by_cases k11 : key = "\r" || key = "\n" || key = "a"
  · rw [if_pos k11]; split_ifs <;> simp [modalCount, hTE, hFP, hDH, hHD, hH]
  rw [if_neg k11]
  by_cases k12 : key = "x" ∧ st.focusPanel = FocusPanel.sessions ∧ 0 < st.visibleSessionsCount
  · rw [if_pos k12]; simp [modalCount, hTE, hFP, hDH, hHD, hH]
  rw [if_neg k12]
  by_cases k13 : key = "D" ∧ st.focusPanel = FocusPanel.sessions ∧ 0 < st.visibleSessionsCount
  · rw [if_pos k13]; simp [modalCount, hTE, hFP, hDH, hHD, hH]
  rw [if_neg k13]
  by_cases k14 : key = "S"
  · rw [if_pos k14]; simp [modalCount, hTE, hFP, hDH, hHD, hH]
  rw [if_neg k14]
  by_cases k15 : key = "R"
  · rw [if_pos k15]; simp [modalCount, hTE, hFP, hDH, hHD, hH]
  rw [if_neg k15]
  by_cases k16 : key = "N"
  · rw [if_pos k16]; simp [modalCount, hTE, hFP, hDH, hHD, hH]
  rw [if_neg k16]
  by_cases k17 : key = "F" ∧ st.notifyDesktop
  · rw [if_pos k17]; simp [modalCount, hTE, hFP, hDH, hHD, hH]
  rw [if_neg k17]
  by_cases k18 : key = "T" ∧ st.notifyDesktop
  · rw [if_pos k18]; simp [modalCount, hTE, hFP, hDH, hHD, hH]
  rw [if_neg k18]
  simp [modalCount, hTE, hFP, hDH, hHD, hH]

/-- When the escape block closes a modal, the modal count drops by exactly
one. -/
theorem escStep_some_count (st st2 : WState) (h : escStep st = some st2) :
    modalCount st2 = modalCount st - 1 := by
  simp only [escStep] at h
  split_ifs at h with h1 h2 h3 h4 h5
  · obtain rfl := Option.some.inj h
    simp [modalCount, h1]
    omega
  · obtain rfl := Option.some.inj h
    simp [modalCount, h1, h2]
    omega
  · obtain rfl := Option.some.inj h
    simp [modalCount, h1, h2, h3]
    omega
  · obtain rfl := Option.some.inj h
    simp [modalCount, h1, h2, h3, h4]
    try omega
  · obtain rfl := Option.some.inj h
    simp [modalCount, h1, h2, h3, h4, h5]
    try omega

/-- The escape block falls through exactly when no modal is open. -/
theorem escStep_none (st : WState) (h : escStep st = none) : modalCount st = 0 := by
  simp only [escStep] at h
  split_ifs at h with h1 h2 h3 h4 h5 <;> simp_all [modalCount]

/-- Neither escape chunk matches any normal-navigation key, so with every
modal closed an escape keystroke leaves the state unchanged. -/
theorem normalStep_esc (st : WState) (key : String)
    (hkey : key = "\x1b" ∨ key = "\x1b\x1b") : normalStep st key = st := by
  rcases hkey with rfl | rfl <;>
    (simp only [normalStep]
     rw [if_neg (by decide), if_neg (by decide), if_neg (by decide), if_neg (by decide),
       if_neg (by decide), if_neg (by decide), if_neg (by decide), if_neg (by decide),
       if_neg (by decide), if_neg (by decide), if_neg (by decide),
       if_neg (fun hc => absurd hc.1 (by decide)), if_neg (fun hc => absurd hc.1 (by decide)),
       if_neg (by decide), if_neg (by decide), if_neg (by decide),
       if_neg (fun hc => absurd hc.1 (by decide)), if_neg (fun hc => absurd hc.1 (by decide))])

/-- With every modal closed, the dispatch tail ignores an escape chunk. -/
theorem dispatch_esc_id (st : WState) (key : String)
    (hkey : key = "\x1b" ∨ key = "\x1b\x1b")
    (hTE : st.showTemplateEditor = false) (hFP : st.showFilterPopup = false)
    (hDH : st.showDetailedHelp = false) (hHD : st.showHookDetail = false)
    (hH : st.showHelp = false) : dispatch st key = st := by
  have htab : ¬(key = "\t" ∧ st.showHooks = true ∧ st.hooksEnabled = true) := by
    rcases hkey with rfl | rfl <;> exact fun hc => absurd hc.1 (by decide)
  simp only [dispatch]
  rw [if_neg (by simp [hFP]), if_neg (by simp [hTE]), if_neg (by simp [hDH]),
    if_neg (by simp [hH]), if_neg (by simp [hHD]), if_neg htab]
  exact normalStep_esc st key hkey

/-- The post-escape dispatch preserves the at-most-one-modal invariant. -/
theorem dispatch_count (st : WState) (key : String) (h : modalCount st ≤ 1) :
    modalCount (dispatch st key) ≤ 1 := by
  obtain ⟨cTE, cFP, cDH, cHD, cH⟩ := modalCount_le_one_cases st h
  simp only [dispatch]
  split_ifs with h1 h2 h3 h4 h5 h6
  · obtain ⟨a, b, c, d⟩ := cFP h1
    exact filterPopupStep_count st key h1 a b c d
  · obtain ⟨a, b, c, d⟩ := cTE h2
    exact templateEditorStep_count st key h2 a b c d
  · obtain ⟨a, b, c, d⟩ := cDH h3
    exact detailedHelpStep_count st key h3 a b c d
  · obtain ⟨a, b, c, d⟩ := cH h4
    exact helpStep_count st key h4 a b c d
  · obtain ⟨a, b, c, d⟩ := cHD h5
    exact hookDetailStep_count st key h5 a b c d
  · simpa [modalCount] using h
  · simpa [modalCount] using h
  · exact normalStep_count st key (by simpa using h2) (by simpa using h1)
      (by simpa using h3) (by simpa using h5) (by simpa using h4)

/-- One keystroke preserves the at-most-one-modal invariant. -/
theorem stepKey_count (st : WState) (key : String) (h : modalCount st ≤ 1) :
    modalCount (stepKey st key) ≤ 1 := by
  simp only [stepKey]
  split_ifs with hesc
  · cases hE : escStep st with
    | some st2 =>
      simp only [hE]
      have := escStep_some_count st st2 hE
      omega
    | none =>
      simp only [hE]
      exact dispatch_count st key h
  · exact dispatch_count st key h

/-- Any key sequence preserves the at-most-one-modal invariant. -/
theorem stepKey_foldl_count (keys : List String) :
    ∀ st : WState, modalCount st ≤ 1 → modalCount (keys.foldl stepKey st) ≤ 1 := by
  induction keys with
  | nil => intro st h; simpa using h
  | cons k ks ih =>
    intro st h
    simpa [List.foldl_cons] using ih (stepKey st k) (stepKey_count st k h)

/-- C8: modal exclusivity and escape semantics of the key handler.  (1) From
the startup state, and more generally from any state with at most one modal
open, every key sequence keeps at most one of the five modal sub-states
(template editor, filter popup, detailed help, hook detail, help) open.
(2) With exactly one modal open, a non-escape keystroke is routed to that
modal's handler block; the guard order the source checks (filter popup before
template editor, help before hook detail, watch.ts:1292-1427) is
indistinguishable from the claimed priority order because the flags are
mutually exclusive.  (3) A single escape keystroke closes exactly one modal
when one is open — the count drops by exactly one, never more — and is a
no-op on this state when none is open. -/
theorem C8_modal_exclusivity_and_escape :
    (∀ keys : List String, modalCount (keys.foldl stepKey c8Init) ≤ 1) ∧
    (∀ (st : WState) (keys : List String), modalCount st ≤ 1 →
      modalCount (keys.foldl stepKey st) ≤ 1) ∧
    (∀ (st : WState) (key : String), isEscape key = false → modalCount st ≤ 1 →
      (st.showTemplateEditor = true → stepKey st key = templateEditorStep st key) ∧
      (st.showFilterPopup = true → stepKey st key = filterPopupStep st key) ∧
      (st.showDetailedHelp = true → stepKey st key = detailedHelpStep st key) ∧
      (st.showHookDetail = true → stepKey st key = hookDetailStep st key) ∧
      (st.showHelp = true → stepKey st key = helpStep st key)) ∧
    (∀ (st : WState) (key : String), isEscape key = true →
      modalCount (stepKey st key) = modalCount st - 1 ∧
      (modalCount st = 0 → stepKey st key = st)) := by
  refine ⟨?_, ?_, ?_, ?_⟩
  · intro keys
    exact stepKey_foldl_count keys c8Init (by decide)
  · intro st keys h
    exact stepKey_foldl_count keys st h
  · intro st key hesc h
    have hstep : stepKey st key = dispatch st key := by
      simp [stepKey, hesc]
    obtain ⟨cTE, cFP, cDH, cHD, cH⟩ := modalCount_le_one_cases st h
    refine ⟨?_, ?_, ?_, ?_, ?_⟩
    · intro hTE
      obtain ⟨hFP, hDH, hHD, hH⟩ := cTE hTE
      rw [hstep]
      simp only [dispatch]
      rw [if_neg (by simp [hFP]), if_pos hTE]
    · intro hFP
      rw [hstep]
      simp only [dispatch]
      rw [if_pos hFP]
    · intro hDH
      obtain ⟨hTE, hFP, hHD, hH⟩ := cDH hDH
      rw [hstep]
      simp only [dispatch]
      rw [if_neg (by simp [hFP]), if_neg (by simp [hTE]), if_pos hDH]
    · intro hHD
      obtain ⟨hTE, hFP, hDH, hH⟩ := cHD hHD
      rw [hstep]
      simp only [dispatch]
      rw [if_neg (by simp [hFP]), if_neg (by simp [hTE]), if_neg (by simp [hDH]),
        if_neg (by simp [hH]), if_pos hHD]
    · intro hH
      obtain ⟨hTE, hFP, hDH, hHD⟩ := cH hH
      rw [hstep]
      simp only [dispatch]
      rw [if_neg (by simp [hFP]), if_neg (by simp [hTE]), if_neg (by simp [hDH]),
        if_pos hH]
  · intro st key hesc
    have hkey : key = "\x1b" ∨ key = "\x1b\x1b" := by
      simpa [isEscape] using hesc
    have hstep : stepKey st key
        = match escStep st with
          | some st2 => st2
          | none => dispatch st key := by
      simp [stepKey, hesc]
    constructor
    · cases hE : escStep st with
      | some st2 =>
        rw [hstep]
        simp only [hE]
        exact escStep_some_count st st2 hE
      | none =>
        rw [hstep]
        simp only [hE]
        have h0 := escStep_none st hE
        obtain ⟨f1, f2, f3, f4, f5⟩ := modalCount_zero st h0
        rw [dispatch_esc_id st key hkey f1 f2 f3 f4 f5]
        omega
    · intro h0
      obtain ⟨f1, f2, f3, f4, f5⟩ := modalCount_zero st h0
      have hE : escStep st = none := by
        simp [escStep, f1, f2, f3, f4, f5]
      rw [hstep]
      simp only [hE]
      exact dispatch_esc_id st key hkey f1 f2 f3 f4 f5

theorem C8_modal_exclusivity_and_escape_witness :
    modalCount (["?", "d", "j", "\x1b", "\x1b"].foldl stepKey c8Init) ≤ 1 ∧
    (modalCount c8Help ≤ 1 ∧ isEscape "d" = false ∧
      stepKey c8Help "d" = helpStep c8Help "d") ∧
    (modalCount (stepKey c8Help "\x1b") = modalCount c8Help - 1 ∧
      (modalCount c8Help = 0 → stepKey c8Help "\x1b" = c8Help)) :=
  ⟨C8_modal_exclusivity_and_escape.1 ["?", "d", "j", "\x1b", "\x1b"],
   ⟨by decide, by decide,
    (C8_modal_exclusivity_and_escape.2.2.1 c8Help "d" (by decide)
      (by decide)).2.2.2.2 (by decide)⟩,
   C8_modal_exclusivity_and_escape.2.2.2 c8Help "\x1b" (by decide)⟩

end AgentWatch
